import Mathlib

/-! Shallow embedding of the two data-preparation scripts of this repository,
`src/process_data.py` (penguin-tracking pipeline) and `src/merge_parquet.py`
(trip pipeline), together with proofs about the specification claims.

A table is a list of column names plus rows of optional cells; a missing
value (NaN/NaT/None) is `none`.  The pandas/sklearn/geopy library operations
the scripts call are modelled by executable Lean functions following the
behaviour the scripts rely on; operations that can raise a Python exception
return `Except PyErr`.  Two numeric library routines whose exact values no
claim depends on are modelled by total computable surrogates and are marked
as such in their doc comments. -/

namespace DataPrep

/-- Calendar timestamp, as produced by date parsing and timestamp composition. -/
structure PTimestamp where
  year : Nat
  month : Nat
  day : Nat
  hour : Nat
  minute : Nat
  second : Nat
deriving DecidableEq

/-- A table cell value: string, rational number (modelling Python floats),
timestamp, or boolean (for one-hot indicator columns). -/
inductive Val where
  | str (s : String)
  | num (q : ℚ)
  | ts (t : PTimestamp)
  | bool (b : Bool)
deriving DecidableEq

/-- Python exceptions raised by the modelled code paths. -/
inductive PyErr where
  | keyError
  | valueError
  | fileNotFoundError
deriving DecidableEq

instance exceptDecEq {ε α : Type} [DecidableEq ε] [DecidableEq α] :
    DecidableEq (Except ε α) := fun a b =>
  match a, b with
  | .ok x, .ok y => decidable_of_iff (x = y) (by simp)
  | .error x, .error y => decidable_of_iff (x = y) (by simp)
  | .ok _, .error _ => isFalse (by simp)
  | .error _, .ok _ => isFalse (by simp)

/-- A pandas DataFrame: column names plus rows of optional cells, each row
aligned positionally with the column list. -/
structure Table where
  cols : List String
  rows : List (List (Option Val))
deriving DecidableEq

def emptyTable : Table := ⟨[], []⟩

/-- Cell of a row at a positional index; reading past the end gives a missing value. -/
def cellAt (r : List (Option Val)) (i : Nat) : Option Val := (r[i]?).getD none

/-- Index of the first column with the given name (pandas column lookup). -/
def findCol : List String → String → Option Nat
  | [], _ => none
  | x :: xs, c => if x = c then some 0 else (findCol xs c).map (· + 1)

/-- Read the cell of row `r` in column `c` of table `t`; an absent column reads
as missing. -/
def getCell (t : Table) (r : List (Option Val)) (c : String) : Option Val :=
  match findCol t.cols c with
  | some i => cellAt r i
  | none => none

/-- Cell of table `t` at row index `i`, column `c`. -/
def tcell (t : Table) (i : Nat) (c : String) : Option Val :=
  match t.rows[i]? with
  | some r => getCell t r c
  | none => none

/-- The full column `c` of table `t`, one optional cell per row. -/
def colCells (t : Table) (c : String) : List (Option Val) :=
  t.rows.map (fun r => getCell t r c)

/-- Write value `v` at position `i` of a row, padding with missing cells if the
row is shorter than `i`. -/
def setAt (r : List (Option Val)) (i : Nat) (v : Option Val) : List (Option Val) :=
  (r ++ List.replicate (i + 1 - r.length) none).set i v

/-- Map over a list with the element index. -/
def imap (f : Nat → α → β) : Nat → List α → List β
  | _, [] => []
  | n, a :: l => f n a :: imap f (n + 1) l

/-- Column assignment `df[c] = series` where the new cell of row `i` is computed
by `f` from the row index and the old row.  If `c` exists it is overwritten in
place, otherwise it is appended as a new last column. -/
def updCol (t : Table) (c : String) (f : Nat → List (Option Val) → Option Val) : Table :=
  match findCol t.cols c with
  | some i => ⟨t.cols, imap (fun n r => setAt r i (f n r)) 0 t.rows⟩
  | none => ⟨t.cols ++ [c], imap (fun n r => setAt r t.cols.length (f n r)) 0 t.rows⟩

/-- Column removal `df.drop(columns=[c])`; dropping an absent column is the
identity here (the script only drops columns it just created). -/
def dropCol (t : Table) (c : String) : Table :=
  match findCol t.cols c with
  | some i => ⟨t.cols.eraseIdx i, t.rows.map (fun r => r.eraseIdx i)⟩
  | none => t

/-! ### Parsing helpers (string handling done on character lists) -/

def isDigitChar (c : Char) : Bool := 48 ≤ c.toNat && c.toNat ≤ 57

/-- Numeric value of a nonempty all-digit character list. -/
def digitsVal? (cs : List Char) : Option Nat :=
  if cs ≠ [] ∧ cs.all isDigitChar then
    some (cs.foldl (fun n c => n * 10 + (c.toNat - 48)) 0)
  else none

/-- Split a character list on a separator, Python `str.split(sep)` style. -/
def splitOnChar (sep : Char) : List Char → List (List Char)
  | [] => [[]]
  | c :: cs =>
    let r := splitOnChar sep cs
    if c = sep then [] :: r
    else
      match r with
      | [] => [[c]]
      | g :: gs => (c :: g) :: gs

/-- Body of a Python float literal: digits with an optional single dot. -/
def pyFloatBody (cs : List Char) : Option ℚ :=
  match splitOnChar '.' cs with
  | [ip] => (digitsVal? ip).map (fun n => (n : ℚ))
  | [ip, fp] =>
    if ip = [] ∧ fp = [] then none
    else
      match (if ip = [] then some 0 else digitsVal? ip),
            (if fp = [] then some 0 else digitsVal? fp) with
      | some a, some b => some ((a : ℚ) + (b : ℚ) / ((10 : ℚ) ^ fp.length))
      | _, _ => none
  | _ => none

/-- Models Python `float(s)` (as used by `astype(float)` and `pd.to_numeric`)
on the decimal forms the data can contain; returns `none` when the string is
not a number, which in the script surfaces as a raised `ValueError` or as a
coerced NaN depending on the call site. -/
def pyFloatL (cs : List Char) : Option ℚ :=
  match cs with
  | '-' :: rest => (pyFloatBody rest).map (fun q => -q)
  | '+' :: rest => pyFloatBody rest
  | _ => pyFloatBody cs

def pyFloat? (s : String) : Option ℚ := pyFloatL s.data

def isLeap (y : Nat) : Bool := y % 4 = 0 && (y % 100 != 0 || y % 400 = 0)

def daysInMonth (y m : Nat) : Nat :=
  if m = 2 then (if isLeap y then 29 else 28)
  else if m = 4 ∨ m = 6 ∨ m = 9 ∨ m = 11 then 30 else 31

/-- Date range representable by pandas nanosecond timestamps (dates outside it
are coerced to NaT by `errors="coerce"`). -/
def tsInBounds (y m d : Nat) : Bool :=
  decide ((1677 < y ∨ (y = 1677 ∧ (9 < m ∨ (m = 9 ∧ 22 ≤ d)))) ∧
          (y < 2262 ∨ (y = 2262 ∧ (m < 4 ∨ (m = 4 ∧ d ≤ 11)))))

/-- Strict day/month/year parse, modelling `strptime` format `%d/%m/%Y` as used
with `errors="coerce"`: one or two digit day and month, up to four digit year,
and a valid in-range calendar date. -/
def parseDMY (s : String) : Option PTimestamp :=
  match splitOnChar '/' s.data with
  | [ds, ms, ys] =>
    if (ds.length = 1 ∨ ds.length = 2) ∧ (ms.length = 1 ∨ ms.length = 2) ∧
        1 ≤ ys.length ∧ ys.length ≤ 4 then
      match digitsVal? ds, digitsVal? ms, digitsVal? ys with
      | some d, some m, some y =>
        if 1 ≤ m ∧ m ≤ 12 ∧ 1 ≤ d ∧ d ≤ daysInMonth y m ∧ tsInBounds y m d = true then
          some ⟨y, m, d, 0, 0, 0⟩
        else none
      | _, _, _ => none
    else none
  | _ => none

/-- Models `pd.to_datetime(cell, format="%d/%m/%Y", errors="coerce")` on one
cell: unparseable and non-string inputs coerce to missing (NaT). -/
def parseDateCell : Option Val → Option Val
  | some (.str s) => (parseDMY s).map .ts
  | some (.ts t) => some (.ts t)
  | _ => none

/-- Python `int(q)`: truncation toward zero. -/
def pyTrunc (q : ℚ) : Int := if 0 ≤ q then q.floor else -((-q).floor)

/-! ### A total order on cell values, modelling the sort order pandas uses for
`Series.mode` (sorted result) and `get_dummies` (sorted categories).  Values
of distinct kinds are ordered by a kind tag; values of the same kind by their
natural order. -/

def listCharLE : List Char → List Char → Bool
  | [], _ => true
  | _ :: _, [] => false
  | a :: as, b :: bs =>
    if a.toNat < b.toNat then true
    else if b.toNat < a.toNat then false
    else listCharLE as bs

def tsKey (t : PTimestamp) : Nat :=
  ((((t.year * 13 + t.month) * 32 + t.day) * 24 + t.hour) * 60 + t.minute) * 60 + t.second

def tagV : Val → Nat
  | .str _ => 0
  | .num _ => 1
  | .ts _ => 2
  | .bool _ => 3

def valLEb (a b : Val) : Bool :=
  match a, b with
  | .str x, .str y => listCharLE x.data y.data
  | .num x, .num y => decide (x ≤ y)
  | .ts x, .ts y => decide (tsKey x ≤ tsKey y)
  | .bool x, .bool y => decide (x.toNat ≤ y.toNat)
  | a, b => decide (tagV a ≤ tagV b)

def valLE (a b : Val) : Prop := valLEb a b = true

instance : DecidableRel valLE := fun a b => instDecidableEqBool (valLEb a b) true

/-! ### Mode of a series, modelling `Series.mode()[0]` -/

/-- Ordering used by `Series.mode`: larger count first, ties by ascending value
(pandas sorts the modes before indexing with `[0]`). -/
def modeOrd (nn : List Val) (a b : Val) : Prop :=
  nn.count b < nn.count a ∨ (nn.count a = nn.count b ∧ valLE a b)

instance (nn : List Val) : DecidableRel (modeOrd nn) := fun a b => by
  unfold modeOrd; infer_instance

/-- The non-missing values of a column. -/
def nonNull (cells : List (Option Val)) : List Val := cells.filterMap id

/-- Models `series.mode()[0]`: the most frequent non-null value, ties broken by
the smallest value in sort order; `none` when there is no non-null value (in
which case the script raises a `KeyError` through `mode()[0]`). -/
def modeVal? (cells : List (Option Val)) : Option Val :=
  (List.insertionSort (modeOrd (nonNull cells)) (nonNull cells).dedup).head?

/-- Distinct non-null values of a column in ascending sort order, modelling the
category order `pd.get_dummies` produces. -/
def sortedDistinct (t : Table) (c : String) : List Val :=
  List.insertionSort valLE (nonNull (colCells t c)).dedup

/-! ### The processing pipeline of `process_data.py`, step by step -/

/-- Step `df["DateGMT"] = pd.to_datetime(df["DateGMT"], format="%d/%m/%Y",
errors="coerce")`: raises `KeyError` when the strictly required date column is
absent, otherwise parses every cell, coercing failures to missing. -/
def dateStep (t : Table) : Except PyErr Table :=
  if "DateGMT" ∈ t.cols then
    .ok (updCol t "DateGMT" (fun _ r => parseDateCell (getCell t r "DateGMT")))
  else .error .keyError

def splitColon (s : String) : List (List Char) := splitOnChar ':' s.data

/-- Hour/minute/second fields of a `TimeGMT` cell after
`str.split(":", expand=True).astype(float)`: non-string cells give an all-NaN
row, short splits are padded with NaN. -/
def timeParts (cell : Option Val) : List (Option ℚ) :=
  match cell with
  | some (.str s) => ((splitColon s).map pyFloatL ++ [none, none, none]).take 3
  | _ => [none, none, none]

/-- Integer time component as the composition lambda computes it:
`int(x)` when present, `0` when NaN. -/
def compInt (p : Option ℚ) : Int :=
  match p with
  | some q => pyTrunc q
  | none => 0

/-- Whether the per-row `pd.Timestamp(...)` construction succeeds for this
row: vacuously for a missing date; for a parsed date the integer components
must be in range; a non-timestamp non-missing date cell would raise. -/
def tsRowOk (dcell : Option Val) (parts : List (Option ℚ)) : Bool :=
  match dcell with
  | none => true
  | some (.ts _) =>
    decide (0 ≤ compInt (parts.getD 0 none) ∧ compInt (parts.getD 0 none) < 24 ∧
            0 ≤ compInt (parts.getD 1 none) ∧ compInt (parts.getD 1 none) < 60 ∧
            0 ≤ compInt (parts.getD 2 none) ∧ compInt (parts.getD 2 none) < 60)
  | some _ => false

/-- The composed per-row timestamp: NaT propagates from an unparseable date. -/
def composeTs (dcell : Option Val) (parts : List (Option ℚ)) : Option Val :=
  match dcell with
  | some (.ts d) =>
    some (.ts ⟨d.year, d.month, d.day, (compInt (parts.getD 0 none)).toNat,
               (compInt (parts.getD 1 none)).toNat, (compInt (parts.getD 2 none)).toNat⟩)
  | _ => none

/-- The hour/minute/second parts a row holds after the split columns were
written (reading the freshly written `hour`, `minute`, `second` cells). -/
def hmsOf (t : Table) (r : List (Option Val)) : List (Option ℚ) :=
  [match getCell t r "hour" with | some (.num q) => some q | _ => none,
   match getCell t r "minute" with | some (.num q) => some q | _ => none,
   match getCell t r "second" with | some (.num q) => some q | _ => none]

/- The time-composition block guarded by `if "TimeGMT" in df.columns`:
split the time strings into `hour`/`minute`/`second` columns, build the
`Timestamp` column row by row, then drop the three helper columns.
Error cases modelled: a non-numeric split component (`astype(float)` raises
`ValueError`), a split width other than three (assignment to three column
keys raises), a missing `DateGMT` column (`KeyError` in the lambda), and
out-of-range integer components (`pd.Timestamp` raises `ValueError`). -/

/-- The string cells of the `TimeGMT` column (the only ones `.str.split`
actually splits; other cells become all-NaN rows). -/
def timeStrs (t : Table) : List String :=
  (colCells t "TimeGMT").filterMap
    (fun cell => match cell with | some (.str s) => some s | _ => none)

/-- Whether `astype(float)` succeeds on every split component. -/
def timeNumOk (t : Table) : Bool :=
  (timeStrs t).all (fun s => (splitColon s).all (fun p => (pyFloatL p).isSome))

/-- Number of columns `str.split(":", expand=True)` produces. -/
def timeWidth (t : Table) : Nat :=
  (timeStrs t).foldl (fun m s => max m (splitColon s).length) 1

/-- Table after writing the `hour` column. -/
def timeT1 (t : Table) : Table :=
  updCol t "hour" (fun _ r => ((timeParts (getCell t r "TimeGMT")).getD 0 none).map .num)

/-- Table after writing the `minute` column. -/
def timeT2 (t : Table) : Table :=
  updCol (timeT1 t) "minute"
    (fun _ r => ((timeParts (getCell (timeT1 t) r "TimeGMT")).getD 1 none).map .num)

/-- Table after writing the `second` column. -/
def timeT3 (t : Table) : Table :=
  updCol (timeT2 t) "second"
    (fun _ r => ((timeParts (getCell (timeT2 t) r "TimeGMT")).getD 2 none).map .num)

/-- Table after writing the composed `Timestamp` column. -/
def timeT4 (t : Table) : Table :=
  updCol (timeT3 t) "Timestamp"
    (fun _ r => composeTs (getCell (timeT3 t) r "DateGMT") (hmsOf (timeT3 t) r))

def timeStep (t : Table) : Except PyErr Table :=
  if "TimeGMT" ∈ t.cols then
    if ¬ timeNumOk t = true then .error .valueError
    else if timeWidth t ≠ 3 then .error .valueError
    else if "DateGMT" ∉ t.cols ∧ ¬ t.rows.isEmpty then .error .keyError
    else if ¬ (timeT3 t).rows.all
        (fun r => tsRowOk (getCell (timeT3 t) r "DateGMT") (hmsOf (timeT3 t) r)) then
      .error .valueError
    else .ok (dropCol (dropCol (dropCol (timeT4 t) "hour") "minute") "second")
  else .ok t

/-- One cell of `pd.to_numeric(series, errors="coerce")`. -/
def toNumericCell : Option Val → Option Val
  | some (.num q) => some (.num q)
  | some (.str s) => (pyFloat? s).map .num
  | some (.bool b) => some (.num (if b then 1 else 0))
  | _ => none

def position_cols : List String := ["Latitude", "Longitude"]

/-- Numeric coercion of one coordinate column, guarded by column presence. -/
def toNumOne (t : Table) (c : String) : Table :=
  if c ∈ t.cols then updCol t c (fun _ r => toNumericCell (getCell t r c)) else t

/-- The `for col in ["Latitude", "Longitude"]` coercion loop. -/
def toNumericStep (t : Table) : Table :=
  toNumOne (toNumOne t "Latitude") "Longitude"

def categorical_cols : List String := ["Sex", "Age", "Breed Stage", "ArgosQuality"]

/-- Mode imputation of one categorical column: only acts when the column is
present and has a missing value; `mode()[0]` on an all-null column raises
(an empty mode series indexed at 0 is a `KeyError`). -/
def modeFillCol (t : Table) (c : String) : Except PyErr Table :=
  if c ∈ t.cols ∧ (colCells t c).any (fun cell => cell.isNone) then
    match modeVal? (colCells t c) with
    | some m => .ok (updCol t c (fun _ r => some ((getCell t r c).getD m)))
    | none => .error .keyError
  else .ok t

/-- The mode-imputation loop over the fixed categorical column list. -/
def modeFill (t : Table) : Except PyErr Table := do
  let t1 ← modeFillCol t "Sex"
  let t2 ← modeFillCol t1 "Age"
  let t3 ← modeFillCol t2 "Breed Stage"
  modeFillCol t3 "ArgosQuality"

/-- Numeric view of a coordinate cell as the KNN imputer sees it. -/
def coordQ : Option Val → Option ℚ
  | some (.num q) => some q
  | _ => none

/-- The two-feature vector (latitude, longitude) of a row. -/
def featRow (t : Table) (r : List (Option Val)) : List (Option ℚ) :=
  [coordQ (getCell t r "Latitude"), coordQ (getCell t r "Longitude")]

/-- Squared nan-euclidean distance between two feature vectors as used by
`KNNImputer`: squared differences over mutually present features, scaled by
total features over present features; undefined when nothing is shared. -/
def nanDist2 (a b : List (Option ℚ)) : Option ℚ :=
  let pairs := (a.zip b).filterMap
    (fun p => match p with
      | (some x, some y) => some ((x - y) * (x - y))
      | _ => none)
  if pairs.length = 0 then none
  else some (((a.length : ℚ) / (pairs.length : ℚ)) * pairs.sum)

/-- Donor ordering: nearest first, ties by row index. -/
def donorLE (a b : ℚ × Nat × ℚ) : Prop :=
  a.1 < b.1 ∨ (a.1 = b.1 ∧ a.2.1 ≤ b.2.1)

instance : DecidableRel donorLE := fun a b => by unfold donorLE; infer_instance

/-- All values present in feature `f` across the feature rows. -/
def presentVals (feats : List (List (Option ℚ))) (f : Nat) : List ℚ :=
  feats.filterMap (fun fr => (fr[f]?).getD none)

/-- Imputed value of feature `f` of row `i`, modelling `KNNImputer(n_neighbors=5)`
with uniform weights: present values pass through unchanged; a missing value is
the average of that feature over the five nearest rows that have it (ties by
row index), falling back to the feature mean when no donor row shares a
feature. -/
def knnImputeVal (feats : List (List (Option ℚ))) (i f : Nat) : ℚ :=
  let fi := (feats[i]?).getD []
  match (fi[f]?).getD none with
  | some v => v
  | none =>
    let donors := imap (fun j fr =>
        if j = i then none
        else
          match (fr[f]?).getD none, nanDist2 fi fr with
          | some v, some d => some (d, j, v)
          | _, _ => none) 0 feats
    let chosen := (List.insertionSort donorLE (donors.filterMap id)).take 5
    if chosen.length = 0 then
      (presentVals feats f).sum / ((presentVals feats f).length : ℚ)
    else (chosen.map (fun x => x.2.2)).sum / (chosen.length : ℚ)

/- The KNN-imputation block: runs only when both coordinate columns exist and
at least one coordinate value is missing.  When it runs and a whole coordinate
column is null, `fit_transform` drops that feature and the two-column
assignment raises a `ValueError` (shape mismatch). -/

/-- The coordinate feature matrix `fit_transform` receives. -/
def knnFeats (t : Table) : List (List (Option ℚ)) := t.rows.map (featRow t)

/-- Table after writing the imputed latitude column. -/
def knnT1 (t : Table) : Table :=
  updCol t "Latitude" (fun i _ => some (.num (knnImputeVal (knnFeats t) i 0)))

def knnStep (t : Table) : Except PyErr Table :=
  if ("Latitude" ∈ t.cols ∧ "Longitude" ∈ t.cols) ∧
      t.rows.any (fun r => (featRow t r).any (fun x => x.isNone)) then
    if (presentVals (knnFeats t) 0).length = 0 ∨ (presentVals (knnFeats t) 1).length = 0 then
      .error .valueError
    else
      .ok (updCol (knnT1 t) "Longitude"
        (fun i _ => some (.num (knnImputeVal (knnFeats t) i 1))))
  else .ok t

def COLONY_LATITUDE : ℚ := -6221 / 100

def COLONY_LONGITUDE : ℚ := -5842 / 100

/-- Models `geodesic((lat, lon), (COLONY_LATITUDE, COLONY_LONGITUDE)).kilometers`.
The geopy geodesic solver is a floating-point iterative routine; no claim
depends on the numeric value, so it is modelled by a total computable
surrogate (scaled taxicab distance in degrees). -/
def geodesic_km (lat lon : ℚ) : ℚ :=
  (111195 / 1000) * (|lat - COLONY_LATITUDE| + |lon - COLONY_LONGITUDE|)

/-- The `distance_to_colony_km` derivation via `df.apply(..., axis=1)`.
The lambda reads `row["Latitude"]` unguarded, so a missing latitude column
raises `KeyError` on any non-empty table; `row["Longitude"]` is only reached
when the latitude value is non-null (short-circuit of `and`). -/
def distanceStep (t : Table) : Except PyErr Table :=
  if "Latitude" ∉ t.cols ∧ ¬ t.rows.isEmpty then .error .keyError
  else if "Longitude" ∉ t.cols ∧
      t.rows.any (fun r => (getCell t r "Latitude").isSome) then .error .keyError
  else
    .ok (updCol t "distance_to_colony_km" (fun _ r =>
      match getCell t r "Latitude", getCell t r "Longitude" with
      | some (.num a), some (.num b) => some (.num (geodesic_km a b))
      | _, _ => none))

/-- The fixed month-to-season dictionary of the script (southern hemisphere,
German labels: Sommer = summer, Herbst = autumn, Winter = winter,
Fruehling = spring); months outside the dictionary map to missing. -/
def season_mapping (m : Nat) : Option String :=
  if m = 12 ∨ m = 1 ∨ m = 2 then some "Sommer"
  else if m = 3 ∨ m = 4 ∨ m = 5 then some "Herbst"
  else if m = 6 ∨ m = 7 ∨ m = 8 then some "Winter"
  else if m = 9 ∨ m = 10 ∨ m = 11 then some "Frühling"
  else none

/-- Month cell to season cell: `series.map(dict)` sends missing and unmapped
values to missing. -/
def seasonCell : Option Val → Option Val
  | some (.num q) =>
    if q.den = 1 ∧ 0 ≤ q.num then (season_mapping q.num.toNat).map .str else none
  | _ => none

/- The temporal-feature block guarded by `if "Timestamp" in df.columns`:
`hour_of_day` and `month` from the timestamp accessor (NaN for NaT), then
`season` by mapping the month through the season dictionary. -/

def tempT1 (t : Table) : Table :=
  updCol t "hour_of_day" (fun _ r =>
    match getCell t r "Timestamp" with
    | some (.ts d) => some (.num (d.hour : ℚ))
    | _ => none)

def tempT2 (t : Table) : Table :=
  updCol (tempT1 t) "month" (fun _ r =>
    match getCell (tempT1 t) r "Timestamp" with
    | some (.ts d) => some (.num (d.month : ℚ))
    | _ => none)

def temporalStep (t : Table) : Table :=
  if "Timestamp" ∈ t.cols then
    updCol (tempT2 t) "season" (fun _ r => seasonCell (getCell (tempT2 t) r "month"))
  else t

/-- Printable form of a category value, used only to build dummy column names. -/
def showVal : Val → String
  | .str s => s
  | .num q => toString q.num ++ "d" ++ toString q.den
  | .ts d => toString (tsKey d)
  | .bool b => toString b

/-- Indicator cells one encoded column contributes to one row: one boolean per
observed distinct value, plus the trailing NaN indicator (`dummy_na=True`). -/
def dummyRow (ds : List Val) (cell : Option Val) : List (Option Val) :=
  ds.map (fun d => some (.bool (decide (cell = some d)))) ++
    [some (.bool cell.isNone)]

/-- Names of the indicator columns for the encoded categorical columns. -/
def dummyColNames (t : Table) : List String :=
  categorical_cols.flatMap (fun c =>
    (sortedDistinct t c).map (fun v => c ++ "_" ++ showVal v) ++ [c ++ "_nan"])

/-- Indicator cells of one row for all encoded categorical columns. -/
def encodedCells (t : Table) (r : List (Option Val)) : List (Option Val) :=
  categorical_cols.flatMap (fun c => dummyRow (sortedDistinct t c) (getCell t r c))

/-- Removal of the original categorical columns. -/
def dropCats (t : Table) : Table :=
  dropCol (dropCol (dropCol (dropCol t "Sex") "Age") "Breed Stage") "ArgosQuality"

/-- Step `pd.get_dummies(df, columns=categorical_cols, prefix=categorical_cols,
dummy_na=True)`: raises `KeyError` when an encoded column is absent; otherwise
replaces each categorical column by its indicator columns (appended after the
remaining columns, grouped per encoded column). -/
def encodeStep (t : Table) : Except PyErr Table :=
  if categorical_cols.all (fun c => decide (c ∈ t.cols)) then
    .ok ⟨(dropCats t).cols ++ dummyColNames t,
         ((dropCats t).rows.zip t.rows).map (fun p => p.1 ++ encodedCells t p.2)⟩
  else .error .keyError

/- The `StandardScaler` block on `distance_to_colony_km` after `fillna(0)`.
`fit` on an empty table raises (sklearn refuses zero samples).  The square
root inside the standard deviation is not representable in `ℚ`; since no claim
depends on the numeric output, the affine rescaling uses the variance as scale
surrogate, with the zero-variance case mapped to scale one exactly as
sklearn's `_handle_zeros_in_scale` does. -/

/-- The distance column with nulls replaced by zero (`fillna(0)`). -/
def distFilled (t : Table) : List ℚ :=
  (colCells t "distance_to_colony_km").map
    (fun cell => match cell with | some (.num q) => q | _ => 0)

def distMean (t : Table) : ℚ := (distFilled t).sum / ((distFilled t).length : ℚ)

def distVar (t : Table) : ℚ :=
  ((distFilled t).map (fun x => (x - distMean t) * (x - distMean t))).sum /
    ((distFilled t).length : ℚ)

def distScale (t : Table) : ℚ := if distVar t = 0 then 1 else distVar t

def normalizeStep (t : Table) : Except PyErr Table :=
  if "distance_to_colony_km" ∈ t.cols then
    if t.rows.isEmpty then .error .valueError
    else
      .ok (updCol t "distance_to_colony_km" (fun _ r =>
        some (.num ((((match getCell t r "distance_to_colony_km" with
                       | some (.num q) => q
                       | _ => 0) - distMean t) / distScale t)))))
  else .ok t

/-- The whole `process_data` body after the initial `df.copy()`. -/
def processData (df : Table) : Except PyErr Table := do
  let t1 ← dateStep df
  let t2 ← timeStep t1
  let t3 := toNumericStep t2
  let t4 ← modeFill t3
  let t5 ← knnStep t4
  let t6 ← distanceStep t5
  let t7 := temporalStep t6
  let t8 ← encodeStep t7
  normalizeStep t8

/-- Reference-level model of calling `process_data(df)`: tables live in a heap
of cells, the caller passes a reference, the body first allocates a fresh cell
holding a copy (`df_processed = df.copy()`) and every subsequent write goes to
that fresh cell; the caller receives the reference of the new cell. -/
def processDataHeap (heap : List Table) (ref : Nat) : List Table × Except PyErr Nat :=
  let t := (heap[ref]?).getD emptyTable
  let newRef := heap.length
  let heap1 := heap ++ [t]
  match processData t with
  | .ok u => (heap1.set newRef u, .ok newRef)
  | .error e => (heap1, .error e)

/-! ### Loading (`load_data`) and the trip pipeline (`merge_parquet.py`) -/

/-- Union-of-columns row alignment used by `pd.concat(..., ignore_index=True)`. -/
def realign (src : Table) (cols : List String) (r : List (Option Val)) : List (Option Val) :=
  cols.map (fun c => getCell src r c)

/-- Concatenation of two tables, preserving the column order of the first and
appending unseen columns of the second. -/
def concat2 (a b : Table) : Table :=
  let cols := a.cols ++ b.cols.filter (fun c => decide (c ∉ a.cols))
  ⟨cols, a.rows.map (realign a cols) ++ b.rows.map (realign b cols)⟩

/-- Concatenation of the loaded per-file tables. -/
def concatTables : List Table → Table
  | [] => emptyTable
  | h :: tl => tl.foldl concat2 h

/-- Model of `load_data`: the glob result is the list of per-file tables; zero
matches raise `FileNotFoundError` before anything is read. -/
def load_data (files : List Table) : Except PyErr Table :=
  if files.isEmpty then .error .fileNotFoundError
  else .ok (concatTables files)

/-- One row of the merged yellow-taxi trip table (the columns the script uses). -/
structure TripRow where
  pickup_datetime : Option PTimestamp
  dropoff_datetime : Option PTimestamp
  fare_amount : Option ℚ
  trip_distance : Option ℚ
deriving DecidableEq

/-- Both designated timestamp columns non-null (`dropna(subset=...)`). -/
def tripTsOk (r : TripRow) : Bool :=
  r.pickup_datetime.isSome && r.dropoff_datetime.isSome

/-- A strictly positive numeric cell; a missing value compares false. -/
def posQ : Option ℚ → Bool
  | some q => decide (0 < q)
  | none => false

def fareOk (r : TripRow) : Bool := posQ r.fare_amount

def distOk (r : TripRow) : Bool := posQ r.trip_distance

/-- The `clean_data` function: drop rows with a null timestamp, then keep
positive fares, then keep positive distances. -/
def clean_data (rows : List TripRow) : List TripRow :=
  ((rows.filter tripTsOk).filter fareOk).filter distOk

/-- Model of `pd.concat(dfs, ignore_index=True)` over the per-file row lists:
an empty list of objects raises `ValueError`. -/
def pdConcatRows (files : List (List TripRow)) : Except PyErr (List TripRow) :=
  if files.isEmpty then .error .valueError else .ok files.flatten

/-- The body of `merge_parquet_files` up to the write: glob result in, cleaned
merged rows out.  Note there is no explicit zero-match check in this script;
an empty glob reaches `pd.concat([])`. -/
def merge_parquet_files (files : List (List TripRow)) : Except PyErr (List TripRow) := do
  let merged ← pdConcatRows files
  .ok (clean_data merged)

/-! ### Composite step and spec-side definitions used by the claim statements -/

/-- The timestamp-composition phase: date parsing followed by the guarded
time-splitting block. -/
def dateTimeSteps (t : Table) : Except PyErr Table := dateStep t >>= timeStep

/-- Conjunction of the three trip-cleaning predicates. -/
def tripKeep (r : TripRow) : Bool := tripTsOk r && fareOk r && distOk r

/-- Largest multiplicity among the non-null values of a column. -/
def maxCount (nn : List Val) : Nat := (nn.map (fun w => nn.count w)).foldl max 0

/-- Modelled from the spec: the most frequent non-null value with ties broken
by the first-encountered value in the table's native ordering.  This follows
the claim's words and exists to be compared against the code's `modeVal?`. -/
def firstEncounteredMode (cells : List (Option Val)) : Option Val :=
  (nonNull cells).find? (fun v => (nonNull cells).count v = maxCount (nonNull cells))

/-- The value `Series.mode()[0]` returns: maximal multiplicity, and smallest
in the value sort order among the maximal ones. -/
def isModeMinTie (cells : List (Option Val)) (m : Val) : Prop :=
  m ∈ nonNull cells ∧
  ∀ v ∈ nonNull cells,
    (nonNull cells).count v ≤ (nonNull cells).count m ∧
    ((nonNull cells).count v = (nonNull cells).count m → valLE m v)

/-! ### Concrete tables and rows used by witnesses and counterexamples -/

def rowEnc_w : List (Option Val) :=
  [some (.str "M"), some (.str "A"), none, some (.str "Q")]

def tEnc_w : Table :=
  ⟨["Sex", "Age", "Breed Stage", "ArgosQuality"], [rowEnc_w]⟩

def uEnc_w : Table :=
  ⟨["Sex_M", "Sex_nan", "Age_A", "Age_nan", "Breed Stage_nan",
    "ArgosQuality_Q", "ArgosQuality_nan"],
   [[some (.bool true), some (.bool false), some (.bool true), some (.bool false),
     some (.bool true), some (.bool true), some (.bool false)]]⟩

def tDate_w : Table := ⟨["DateGMT"], [[some (.str "31/02/2021")]]⟩

def uDate_w : Table := ⟨["DateGMT"], [[none]]⟩

def tTime_x : Table :=
  ⟨["DateGMT", "TimeGMT"], [[some (.str "01/01/2020"), some (.str "ab:cd:ef")]]⟩

def tLat_x : Table :=
  ⟨["DateGMT", "Longitude", "Sex", "Age", "Breed Stage", "ArgosQuality"],
   [[some (.str "01/02/2020"), some (.num 2), some (.str "M"), some (.str "A"),
     some (.str "B"), some (.str "Q")]]⟩

def tPipe_w : Table :=
  ⟨["DateGMT", "Latitude", "Longitude", "Sex", "Age", "Breed Stage", "ArgosQuality"],
   [[some (.str "01/02/2020"), some (.num (-62)), some (.num (-58)), some (.str "M"),
     some (.str "A"), some (.str "B"), some (.str "Q")]]⟩

def tMode_x : Table := ⟨["Sex"], [[some (.str "b")], [some (.str "a")], [none]]⟩

def uMode_x : Table := ⟨["Sex"], [[some (.str "b")], [some (.str "a")], [some (.str "a")]]⟩

def tMode_w : Table := ⟨["Age"], [[some (.str "x")], [none]]⟩

def tKnn_w : Table :=
  ⟨["Latitude", "Longitude"],
   [[some (.num (-62)), some (.num (-58))],
    [some (.num (-63)), none],
    [some (.num (-61)), some (.num (-59))]]⟩

def file1_w : Table := ⟨["A"], [[some (.str "x")]]⟩

def file2_w : Table := ⟨["B"], [[some (.str "y")], [some (.str "z")]]⟩

def tripGood : TripRow :=
  ⟨some ⟨2024, 1, 1, 0, 0, 0⟩, some ⟨2024, 1, 1, 1, 0, 0⟩, some 10, some 2⟩

def tripBad : TripRow :=
  ⟨some ⟨2024, 1, 1, 0, 0, 0⟩, some ⟨2024, 1, 1, 1, 0, 0⟩, some (-5), some 2⟩

def heap_w : List Table := [⟨["A"], [[some (.str "x")]]⟩, ⟨["B"], []⟩]

/-! ### Order and mode facts -/

theorem listCharLE_total (a b : List Char) : listCharLE a b = true ∨ listCharLE b a = true := by
  induction a generalizing b with
  | nil => left; rfl
  | cons x xs ih =>
    cases b with
    | nil => right; rfl
    | cons y ys =>
      by_cases h1 : x.toNat < y.toNat
      · left; simp [listCharLE, h1]
      · by_cases h2 : y.toNat < x.toNat
        · right; simp [listCharLE, h2]
        · rcases ih ys with h | h
          · left; simp [listCharLE, h1, h2, h]
          · right; simp [listCharLE, h1, h2, h]

theorem listCharLE_trans (a b c : List Char) (hab : listCharLE a b = true)
    (hbc : listCharLE b c = true) : listCharLE a c = true := by
  induction a generalizing b c with
  | nil => rfl
  | cons x xs ih =>
    cases b with
    | nil => simp [listCharLE] at hab
    | cons y ys =>
      cases c with
      | nil => simp [listCharLE] at hbc
      | cons z zs =>
        simp only [listCharLE] at hab hbc ⊢
        split_ifs at hab hbc ⊢ <;>
          first
            | rfl
            | omega
            | exact ih ys zs hab hbc

instance : IsTotal Val valLE := by
  constructor
  intro a b
  cases a <;> cases b <;> simp only [valLE, valLEb, tagV, decide_eq_true_eq] <;>
    first
      | exact listCharLE_total _ _
      | exact le_total _ _

instance : IsTrans Val valLE := by
  constructor
  intro a b c hab hbc
  cases a <;> cases b <;> cases c <;>
    simp only [valLE, valLEb, tagV, decide_eq_true_eq] at hab hbc ⊢ <;>
    first
      | exact listCharLE_trans _ _ _ hab hbc
      | exact le_trans hab hbc
      | omega

instance (nn : List Val) : IsTotal Val (modeOrd nn) := by
  constructor
  intro a b
  rcases Nat.lt_trichotomy (nn.count a) (nn.count b) with h | h | h
  · right; left; exact h
  · rcases (IsTotal.total (r := valLE) a b) with hv | hv
    · left; right; exact ⟨h, hv⟩
    · right; right; exact ⟨h.symm, hv⟩
  · left; left; exact h

instance (nn : List Val) : IsTrans Val (modeOrd nn) := by
  constructor
  intro a b c hab hbc
  rcases hab with h1 | ⟨h1, hv1⟩
  · rcases hbc with h2 | ⟨h2, _⟩
    · left; omega
    · left; omega
  · rcases hbc with h2 | ⟨h2, hv2⟩
    · left; omega
    · right; exact ⟨h1.trans h2, Trans.trans hv1 hv2⟩

/-! ### Basic lemmas about rows, columns and cell access -/

theorem imap_length (f : Nat → α → β) (n : Nat) (l : List α) :
    (imap f n l).length = l.length := by
  induction l generalizing n with
  | nil => rfl
  | cons a l ih => simp [imap, ih]

theorem imap_getElem? (f : Nat → α → β) (n : Nat) (l : List α) (i : Nat) :
    (imap f n l)[i]? = (l[i]?).map (f (n + i)) := by
  induction l generalizing n i with
  | nil => simp [imap]
  | cons a l ih =>
    cases i with
    | zero => simp [imap]
    | succ k =>
      have h : n + 1 + k = n + (k + 1) := by omega
      simp only [imap, List.getElem?_cons_succ, ih (n + 1) k, h]

theorem cellAt_setAt_self (r : List (Option Val)) (i : Nat) (v : Option Val) :
    cellAt (setAt r i v) i = v := by
  have hlen : i < (r ++ List.replicate (i + 1 - r.length) none).length := by
    simp only [List.length_append, List.length_replicate]
    omega
  simp [cellAt, setAt, List.getElem?_set_self hlen]

theorem cellAt_setAt_ne (r : List (Option Val)) (i j : Nat) (v : Option Val)
    (h : j ≠ i) : cellAt (setAt r i v) j = cellAt r j := by
  unfold cellAt setAt
  rw [List.getElem?_set_ne (fun he => h he.symm)]
  by_cases hj : j < r.length
  · rw [List.getElem?_append_left hj]
  · rw [List.getElem?_append_right (le_of_not_lt hj)]
    have h1 : r[j]? = none := by
      rw [List.getElem?_eq_none_iff]
      omega
    rw [h1, List.getElem?_replicate]
    split <;> rfl

theorem cellAt_eraseIdx_lt (r : List (Option Val)) (j k : Nat) (h : k < j) :
    cellAt (r.eraseIdx j) k = cellAt r k := by
  simp [cellAt, List.getElem?_eraseIdx_of_lt r j k h]

theorem cellAt_eraseIdx_ge (r : List (Option Val)) (j k : Nat) (h : j ≤ k) :
    cellAt (r.eraseIdx j) k = cellAt r (k + 1) := by
  simp [cellAt, List.getElem?_eraseIdx_of_ge r j k h]

theorem findCol_isSome_iff (cols : List String) (c : String) :
    (findCol cols c).isSome ↔ c ∈ cols := by
  induction cols with
  | nil => simp [findCol]
  | cons x xs ih =>
    by_cases h : x = c
    · simp [findCol, h]
    · simp [findCol, h, Option.isSome_map, ih, Ne.symm h]

theorem findCol_eq_none_iff (cols : List String) (c : String) :
    findCol cols c = none ↔ c ∉ cols := by
  rw [← findCol_isSome_iff]
  cases findCol cols c <;> simp

theorem findCol_name (cols : List String) (c : String) (i : Nat)
    (h : findCol cols c = some i) : cols[i]? = some c := by
  induction cols generalizing i with
  | nil => simp [findCol] at h
  | cons x xs ih =>
    by_cases hx : x = c
    · simp [findCol, hx] at h
      subst h hx
      simp
    · simp [findCol, hx] at h
      obtain ⟨j, hj, rfl⟩ := h
      simpa using ih j hj

theorem findCol_lt_length (cols : List String) (c : String) (i : Nat)
    (h : findCol cols c = some i) : i < cols.length := by
  have h2 := findCol_name cols c i h
  obtain ⟨hlt, _⟩ := List.getElem?_eq_some.mp h2
  exact hlt

theorem findCol_ne_indices (cols : List String) (c1 c2 : String) (i j : Nat)
    (h1 : findCol cols c1 = some i) (h2 : findCol cols c2 = some j)
    (hne : c1 ≠ c2) : i ≠ j := by
  intro he
  subst he
  have n1 := findCol_name cols c1 i h1
  have n2 := findCol_name cols c2 i h2
  rw [n1] at n2
  exact hne (Option.some.inj n2)

theorem findCol_append_left (cols l2 : List String) (c : String) (h : c ∈ cols) :
    findCol (cols ++ l2) c = findCol cols c := by
  induction cols with
  | nil => simp at h
  | cons x xs ih =>
    by_cases hx : x = c
    · simp [findCol, hx]
    · have hm : c ∈ xs := by
        rcases List.mem_cons.mp h with h | h
        · exact absurd h.symm hx
        · exact h
      simp [findCol, hx, ih hm]

theorem findCol_append_self (cols : List String) (c : String) (h : c ∉ cols) :
    findCol (cols ++ [c]) c = some cols.length := by
  induction cols with
  | nil => simp [findCol]
  | cons x xs ih =>
    have hx : x ≠ c := fun he => h (by simp [he])
    have hm : c ∉ xs := fun hm => h (by simp [hm])
    simp [findCol, hx, ih hm]

theorem findCol_append_ne (cols : List String) (c c2 : String) (h : c ∉ cols)
    (hne : c ≠ c2) : findCol (cols ++ [c2]) c = none := by
  rw [findCol_eq_none_iff]
  simp [h, hne]

theorem findCol_eraseIdx_lt (cols : List String) (c2 : String) (j k : Nat)
    (hk : findCol cols c2 = some k) (hlt : k < j) :
    findCol (cols.eraseIdx j) c2 = some k := by
  induction cols generalizing j k with
  | nil => simp [findCol] at hk
  | cons x xs ih =>
    cases j with
    | zero => omega
    | succ j0 =>
      by_cases hx : x = c2
      · simp [findCol, hx] at hk
        simp [List.eraseIdx_cons_succ, findCol, hx, ← hk]
      · simp [findCol, hx] at hk
        obtain ⟨k0, hk0, rfl⟩ := hk
        simp [List.eraseIdx_cons_succ, findCol, hx, ih j0 k0 hk0 (by omega)]

theorem findCol_eraseIdx_gt (cols : List String) (c2 : String) (j k : Nat)
    (hk : findCol cols c2 = some k) (hgt : j < k) :
    findCol (cols.eraseIdx j) c2 = some (k - 1) := by
  induction cols generalizing j k with
  | nil => simp [findCol] at hk
  | cons x xs ih =>
    by_cases hx : x = c2
    · simp [findCol, hx] at hk
      omega
    · simp [findCol, hx] at hk
      obtain ⟨k0, hk0, rfl⟩ := hk
      cases j with
      | zero =>
        simp [List.eraseIdx_cons_zero, hk0]
      | succ j0 =>
        have hr := ih j0 k0 hk0 (by omega)
        simp [List.eraseIdx_cons_succ, findCol, hx, hr]
        omega

theorem findCol_eraseIdx_none (cols : List String) (c2 : String) (j : Nat)
    (h : findCol cols c2 = none) : findCol (cols.eraseIdx j) c2 = none := by
  rw [findCol_eq_none_iff] at h ⊢
  intro hm
  exact h ((List.eraseIdx_sublist cols j).mem hm)

theorem updCol_rows_length (t : Table) (c : String)
    (f : Nat → List (Option Val) → Option Val) :
    (updCol t c f).rows.length = t.rows.length := by
  unfold updCol
  cases h : findCol t.cols c <;> simp [imap_length]

theorem updCol_cols_of_mem (t : Table) (c : String)
    (f : Nat → List (Option Val) → Option Val) (h : c ∈ t.cols) :
    (updCol t c f).cols = t.cols := by
  unfold updCol
  cases hf : findCol t.cols c with
  | none => exact absurd h ((findCol_eq_none_iff _ _).mp hf)
  | some i => rfl

theorem updCol_cols_of_not_mem (t : Table) (c : String)
    (f : Nat → List (Option Val) → Option Val) (h : c ∉ t.cols) :
    (updCol t c f).cols = t.cols ++ [c] := by
  unfold updCol
  cases hf : findCol t.cols c with
  | none => rfl
  | some i =>
    have : c ∈ t.cols := (findCol_isSome_iff _ _).mp (by simp [hf])
    exact absurd this h

theorem mem_updCol_cols (t : Table) (c : String)
    (f : Nat → List (Option Val) → Option Val) (c2 : String) :
    c2 ∈ (updCol t c f).cols ↔ (c2 ∈ t.cols ∨ c2 = c) := by
  by_cases h : c ∈ t.cols
  · rw [updCol_cols_of_mem t c f h]
    constructor
    · exact fun hm => Or.inl hm
    · rintro (hm | rfl)
      · exact hm
      · exact h
  · rw [updCol_cols_of_not_mem t c f h]
    simp

theorem tcell_updCol_self (t : Table) (c : String)
    (f : Nat → List (Option Val) → Option Val) (i : Nat) (r : List (Option Val))
    (hr : t.rows[i]? = some r) : tcell (updCol t c f) i c = f i r := by
  cases hf : findCol t.cols c with
  | some j =>
    simp only [tcell, updCol, hf, imap_getElem?, hr, Nat.zero_add, Option.map_some']
    simp only [getCell, hf]
    exact cellAt_setAt_self r j (f i r)
  | none =>
    have hf2 := findCol_append_self t.cols c ((findCol_eq_none_iff _ _).mp hf)
    simp only [tcell, updCol, hf, imap_getElem?, hr, Nat.zero_add, Option.map_some']
    simp only [getCell, hf2]
    exact cellAt_setAt_self r t.cols.length (f i r)

theorem tcell_updCol_ne (t : Table) (c : String)
    (f : Nat → List (Option Val) → Option Val) (c2 : String) (hne : c2 ≠ c) (i : Nat) :
    tcell (updCol t c f) i c2 = tcell t i c2 := by
  cases hri : t.rows[i]? with
  | none =>
    have hlen : t.rows.length ≤ i := by
      rw [← List.getElem?_eq_none_iff]
      exact hri
    have hri2 : (updCol t c f).rows[i]? = none := by
      rw [List.getElem?_eq_none_iff, updCol_rows_length]
      exact hlen
    simp [tcell, hri, hri2]
  | some r =>
    cases hf : findCol t.cols c with
    | some j =>
      simp only [tcell, updCol, hf, imap_getElem?, hri, Nat.zero_add, Option.map_some']
      simp only [getCell]
      cases hf2 : findCol t.cols c2 with
      | none => rfl
      | some k =>
        have hk : k ≠ j := findCol_ne_indices t.cols c2 c k j hf2 hf hne
        exact cellAt_setAt_ne r j k (f i r) hk
    | none =>
      have hc : c ∉ t.cols := (findCol_eq_none_iff _ _).mp hf
      simp only [tcell, updCol, hf, imap_getElem?, hri, Nat.zero_add, Option.map_some']
      simp only [getCell]
      cases hf2 : findCol t.cols c2 with
      | none =>
        have : findCol (t.cols ++ [c]) c2 = none := by
          rw [findCol_eq_none_iff]
          have h2 : c2 ∉ t.cols := (findCol_eq_none_iff _ _).mp hf2
          simp [h2, hne]
        rw [this]
      | some k =>
        have hmem : c2 ∈ t.cols := (findCol_isSome_iff _ _).mp (by simp [hf2])
        rw [findCol_append_left t.cols [c] c2 hmem, hf2]
        have hk : k < t.cols.length := findCol_lt_length t.cols c2 k hf2
        exact cellAt_setAt_ne r t.cols.length k (f i r) (by omega)

theorem dropCol_rows_length (t : Table) (c : String) :
    (dropCol t c).rows.length = t.rows.length := by
  unfold dropCol
  cases h : findCol t.cols c <;> simp

theorem mem_dropCol_cols (t : Table) (c c2 : String) (hne : c2 ≠ c) :
    c2 ∈ (dropCol t c).cols ↔ c2 ∈ t.cols := by
  unfold dropCol
  cases hf : findCol t.cols c with
  | none => simp
  | some j =>
    constructor
    · intro h
      exact (List.eraseIdx_sublist t.cols j).mem h
    · intro h
      rw [← findCol_isSome_iff] at h ⊢
      cases hk : findCol t.cols c2 with
      | none => rw [hk] at h; simp at h
      | some k =>
        have hkj : k ≠ j := findCol_ne_indices t.cols c2 c k j hk hf hne
        rcases Nat.lt_or_ge k j with hlt | hge
        · rw [findCol_eraseIdx_lt t.cols c2 j k hk hlt]; simp
        · have hgt : j < k := by omega
          rw [findCol_eraseIdx_gt t.cols c2 j k hk hgt]; simp

theorem tcell_dropCol_ne (t : Table) (c c2 : String) (hne : c2 ≠ c) (i : Nat) :
    tcell (dropCol t c) i c2 = tcell t i c2 := by
  cases hri : t.rows[i]? with
  | none =>
    have hlen : t.rows.length ≤ i := by
      rw [← List.getElem?_eq_none_iff]
      exact hri
    have hri2 : (dropCol t c).rows[i]? = none := by
      rw [List.getElem?_eq_none_iff, dropCol_rows_length]
      exact hlen
    simp [tcell, hri, hri2]
  | some r =>
    cases hf : findCol t.cols c with
    | none =>
      simp [tcell, dropCol, hf, hri]
    | some j =>
      simp only [tcell, dropCol, hf, List.getElem?_map, hri, Option.map_some']
      simp only [getCell]
      cases hk : findCol t.cols c2 with
      | none =>
        rw [findCol_eraseIdx_none t.cols c2 j hk]
      | some k =>
        have hkj : k ≠ j := findCol_ne_indices t.cols c2 c k j hk hf hne
        rcases Nat.lt_or_ge k j with hlt | hge
        · rw [findCol_eraseIdx_lt t.cols c2 j k hk hlt]
          exact cellAt_eraseIdx_lt r j k hlt
        · have hgt : j < k := by omega
          rw [findCol_eraseIdx_gt t.cols c2 j k hk hgt]
          show cellAt (r.eraseIdx j) (k - 1) = cellAt r k
          have h1 : cellAt (r.eraseIdx j) (k - 1) = cellAt r (k - 1 + 1) :=
            cellAt_eraseIdx_ge r j (k - 1) (by omega)
          rw [h1]
          congr 1
          omega

theorem colCells_length (t : Table) (c : String) :
    (colCells t c).length = t.rows.length := by
  simp [colCells]

theorem colCells_getElem? (t : Table) (c : String) (i : Nat) :
    (colCells t c)[i]? = (t.rows[i]?).map (fun r => getCell t r c) := by
  simp [colCells]

theorem tcell_mem_colCells (t : Table) (c : String) (i : Nat)
    (h : i < t.rows.length) : tcell t i c ∈ colCells t c := by
  cases hr : t.rows[i]? with
  | none =>
    rw [List.getElem?_eq_none_iff] at hr
    omega
  | some r =>
    have hm : r ∈ t.rows := by
      rw [List.mem_iff_getElem?]
      exact ⟨i, hr⟩
    simp only [tcell, hr]
    exact List.mem_map_of_mem _ hm

theorem colCells_ext (t u : Table) (c : String)
    (hlen : t.rows.length = u.rows.length)
    (h : ∀ i, tcell t i c = tcell u i c) : colCells t c = colCells u c := by
  apply List.ext_getElem?
  intro i
  rw [colCells_getElem?, colCells_getElem?]
  cases hrt : t.rows[i]? with
  | none =>
    have hru : u.rows[i]? = none := by
      rw [List.getElem?_eq_none_iff] at hrt ⊢
      omega
    simp [hru]
  | some r =>
    have hlt : i < u.rows.length := by
      obtain ⟨hlt2, _⟩ := List.getElem?_eq_some.mp hrt
      omega
    cases hru : u.rows[i]? with
    | none =>
      rw [List.getElem?_eq_none_iff] at hru
      omega
    | some s =>
      have hi := h i
      simp only [tcell, hrt, hru] at hi
      simp [hi]

/-! ### Loader and cleaner lemmas -/

theorem concat2_rows_length (a b : Table) :
    (concat2 a b).rows.length = a.rows.length + b.rows.length := by
  simp [concat2]

theorem concatTables_rows_length (fs : List Table) :
    (concatTables fs).rows.length = (fs.map (fun t => t.rows.length)).sum := by
  cases fs with
  | nil => rfl
  | cons h tl =>
    suffices hgen : ∀ acc : Table,
        (tl.foldl concat2 acc).rows.length =
          acc.rows.length + (tl.map (fun t => t.rows.length)).sum by
      simpa [concatTables] using hgen h
    induction tl with
    | nil => intro acc; simp
    | cons x xs ih =>
      intro acc
      simp only [List.foldl_cons, ih, concat2_rows_length, List.map_cons, List.sum_cons]
      omega

theorem filter3_eq (p q s : TripRow → Bool) (rows : List TripRow) :
    ((rows.filter p).filter q).filter s = rows.filter (fun r => p r && q r && s r) := by
  rw [List.filter_filter, List.filter_filter]
  apply List.filter_congr
  intro r _
  cases p r <;> cases q r <;> cases s r <;> rfl

theorem filter_conj_comm (p q s : TripRow → Bool) (rows : List TripRow) :
    rows.filter (fun r => p r && q r && s r) = rows.filter (fun r => q r && p r && s r) := by
  apply List.filter_congr
  intro r _
  cases p r <;> cases q r <;> cases s r <;> rfl

/-! ### Claim C6 -/

/-- C6: the season mapping of the script is total on months 1..12 and follows
the southern-hemisphere convention: month 1 maps to the summer label and
month 7 to the winter label ("Sommer" and "Winter" are the German words for
summer and winter used by the script), with December, January and February
mapping to summer and June, July and August to winter. -/
theorem claim_C6_season_map :
    (∀ m : Nat, 1 ≤ m → m ≤ 12 → (season_mapping m).isSome) ∧
    season_mapping 1 = some "Sommer" ∧
    season_mapping 7 = some "Winter" ∧
    (∀ m : Nat, (m = 12 ∨ m = 1 ∨ m = 2) → season_mapping m = some "Sommer") ∧
    (∀ m : Nat, (m = 6 ∨ m = 7 ∨ m = 8) → season_mapping m = some "Winter") := by
  refine ⟨?_, by decide, by decide, ?_, ?_⟩
  · intro m h1 h2
    interval_cases m <;> decide
  · rintro m (rfl | rfl | rfl) <;> decide
  · rintro m (rfl | rfl | rfl) <;> decide

/-- Witness for C6 at month 7. -/
theorem claim_C6_season_map_witness : (season_mapping 7).isSome :=
  claim_C6_season_map.1 7 (by decide) (by decide)

/-! ### Claim C10 -/

/-- C10: calling `process_data` leaves the table referenced by the caller
unchanged: the body copies the input into a fresh heap cell and every write
goes to the copy, whose (distinct) reference is what the caller gets back. -/
theorem claim_C10_caller_unchanged (heap : List Table) (ref : Nat)
    (h : ref < heap.length) :
    (processDataHeap heap ref).1[ref]? = heap[ref]? ∧
    (∀ r2 : Nat, (processDataHeap heap ref).2 = .ok r2 → r2 ≠ ref) := by
  cases hp : processData ((heap[ref]?).getD emptyTable) with
  | ok u =>
    constructor
    · simp only [processDataHeap, hp]
      rw [List.getElem?_set_ne (by omega)]
      exact List.getElem?_append_left h
    · intro r2 h2
      simp only [processDataHeap, hp, Except.ok.injEq] at h2
      omega
  | error e =>
    constructor
    · simp only [processDataHeap, hp]
      exact List.getElem?_append_left h
    · intro r2 h2
      simp only [processDataHeap, hp] at h2
      exact absurd h2 (by simp)

/-- Witness for C10 on a concrete two-table heap. -/
theorem claim_C10_caller_unchanged_witness :
    (processDataHeap heap_w 0).1[0]? = heap_w[0]? :=
  (claim_C10_caller_unchanged heap_w 0 (by decide)).1

/-! ### Claim C7 (corrected) -/

/-- C7 counterexample: on a glob matching zero files the trip-merging loader
does not fail with `FileNotFoundError`; it reaches `pd.concat([])`, which
raises `ValueError`. -/
theorem claim_C7_loader_counterexample :
    merge_parquet_files [] = .error .valueError ∧
    PyErr.valueError ≠ PyErr.fileNotFoundError := by
  constructor
  · rfl
  · decide

/-- C7 amended: the CSV loader (`load_data`) fails with `FileNotFoundError`
on zero matching files and otherwise concatenates all matching files (the
concatenation has as many rows as all inputs together); the parquet merge
loader also fails before any processing on zero matching files, but with the
`ValueError` of `pd.concat([])` rather than `FileNotFoundError`, and
otherwise reads, concatenates and cleans all matching files. -/
theorem claim_C7_loader_amended :
    load_data [] = .error .fileNotFoundError ∧
    (∀ fs : List Table, fs ≠ [] →
      load_data fs = .ok (concatTables fs) ∧
      (concatTables fs).rows.length = (fs.map (fun t => t.rows.length)).sum) ∧
    merge_parquet_files [] = .error .valueError ∧
    (∀ fls : List (List TripRow), fls ≠ [] →
      merge_parquet_files fls = .ok (clean_data fls.flatten)) := by
  refine ⟨rfl, ?_, rfl, ?_⟩
  · intro fs hne
    constructor
    · simp [load_data, hne]
    · exact concatTables_rows_length fs
  · intro fls hne
    simp [merge_parquet_files, pdConcatRows, hne, Bind.bind, Except.bind]

/-- Witness for C7 on concrete file lists. -/
theorem claim_C7_loader_amended_witness :
    load_data [file1_w, file2_w] = .ok (concatTables [file1_w, file2_w]) ∧
    merge_parquet_files [[tripGood], [tripBad]] =
      .ok (clean_data ([[tripGood], [tripBad]] : List (List TripRow)).flatten) :=
  ⟨(claim_C7_loader_amended.2.1 [file1_w, file2_w] (by decide)).1,
   claim_C7_loader_amended.2.2.2 [[tripGood], [tripBad]] (by decide)⟩

/-! ### Claim C8 -/

/-- C8: the trip cleaning keeps exactly the rows satisfying the conjunction of
the three predicates (both timestamps present, positive fare, positive
distance); hence every output row has a positive fare, a positive distance
and both timestamps non-null, and applying the three filters in any order
gives the same result. -/
theorem claim_C8_clean_conjunction :
    (∀ rows : List TripRow, clean_data rows = rows.filter tripKeep) ∧
    (∀ rows : List TripRow, ∀ r ∈ clean_data rows,
      (∃ q, r.fare_amount = some q ∧ 0 < q) ∧
      (∃ q, r.trip_distance = some q ∧ 0 < q) ∧
      r.pickup_datetime.isSome = true ∧ r.dropoff_datetime.isSome = true) ∧
    (∀ rows : List TripRow,
      ((rows.filter tripTsOk).filter distOk).filter fareOk = clean_data rows ∧
      ((rows.filter fareOk).filter tripTsOk).filter distOk = clean_data rows ∧
      ((rows.filter fareOk).filter distOk).filter tripTsOk = clean_data rows ∧
      ((rows.filter distOk).filter tripTsOk).filter fareOk = clean_data rows ∧
      ((rows.filter distOk).filter fareOk).filter tripTsOk = clean_data rows) := by
  have hbase : ∀ rows : List TripRow, clean_data rows = rows.filter tripKeep := by
    intro rows
    unfold clean_data
    rw [filter3_eq]
    apply List.filter_congr
    intro r _
    rfl
  refine ⟨hbase, ?_, ?_⟩
  · intro rows r hr
    rw [hbase] at hr
    have hk := (List.mem_filter.mp hr).2
    unfold tripKeep tripTsOk fareOk distOk posQ at hk
    cases hf : r.fare_amount with
    | none => rw [hf] at hk; simp at hk
    | some qf =>
      cases hd : r.trip_distance with
      | none => rw [hf, hd] at hk; simp at hk
      | some qd =>
        rw [hf, hd] at hk
        simp only [Bool.and_eq_true, decide_eq_true_eq] at hk
        exact ⟨⟨qf, rfl, hk.1.2⟩, ⟨qd, rfl, hk.2⟩, hk.1.1.1, hk.1.1.2⟩
  · intro rows
    have h1 := filter3_eq tripTsOk distOk fareOk rows
    have h2 := filter3_eq fareOk tripTsOk distOk rows
    have h3 := filter3_eq fareOk distOk tripTsOk rows
    have h4 := filter3_eq distOk tripTsOk fareOk rows
    have h5 := filter3_eq distOk fareOk tripTsOk rows
    have hperm : ∀ p q s : TripRow → Bool,
        rows.filter (fun r => p r && q r && s r) =
          rows.filter (fun r => tripTsOk r && fareOk r && distOk r) →
        ((rows.filter p).filter q).filter s = clean_data rows := by
      intro p q s he
      rw [filter3_eq, he, hbase]
      apply List.filter_congr
      intro r _
      rfl
    refine ⟨hperm _ _ _ ?_, hperm _ _ _ ?_, hperm _ _ _ ?_, hperm _ _ _ ?_, hperm _ _ _ ?_⟩ <;>
      · apply List.filter_congr
        intro r _
        cases tripTsOk r <;> cases fareOk r <;> cases distOk r <;> rfl

/-- Witness for C8 on a two-row list. -/
theorem claim_C8_clean_conjunction_witness :
    (∃ q, tripGood.fare_amount = some q ∧ 0 < q) ∧
    (∃ q, tripGood.trip_distance = some q ∧ 0 < q) ∧
    tripGood.pickup_datetime.isSome = true ∧ tripGood.dropoff_datetime.isSome = true :=
  claim_C8_clean_conjunction.2.1 [tripGood, tripBad] tripGood (by decide)

/-! ### Claim C5 -/

theorem tcell_some_rows (t : Table) (i : Nat) (c : String) (v : Val)
    (h : tcell t i c = some v) :
    ∃ r, t.rows[i]? = some r ∧ getCell t r c = some v := by
  cases hr : t.rows[i]? with
  | none => simp [tcell, hr] at h
  | some r =>
    refine ⟨r, rfl, ?_⟩
    simpa [tcell, hr] using h

/-- C5: a row whose latitude and longitude are both present before the KNN
imputation block keeps both coordinate values unchanged: the step cannot fail
on such a table, and the row reads back identically afterwards. -/
theorem claim_C5_knn_keeps_present (t : Table) (i : Nat) (a b : ℚ)
    (hla : tcell t i "Latitude" = some (.num a))
    (hlo : tcell t i "Longitude" = some (.num b)) :
    ∃ u, knnStep t = .ok u ∧
      tcell u i "Latitude" = some (.num a) ∧
      tcell u i "Longitude" = some (.num b) := by
  obtain ⟨r, hr, hgla⟩ := tcell_some_rows t i "Latitude" (.num a) hla
  have hglo : getCell t r "Longitude" = some (.num b) := by
    obtain ⟨r2, hr2, h2⟩ := tcell_some_rows t i "Longitude" (.num b) hlo
    rw [hr] at hr2
    exact Option.some.inj hr2 ▸ h2
  by_cases hg : ("Latitude" ∈ t.cols ∧ "Longitude" ∈ t.cols) ∧
      t.rows.any (fun r => (featRow t r).any (fun x => x.isNone)) = true
  · have hfr : featRow t r = [some a, some b] := by
      simp [featRow, hgla, hglo, coordQ]
    have hfeats : (knnFeats t)[i]? = some [some a, some b] := by
      rw [knnFeats, List.getElem?_map, hr]
      simp [hfr]
    have hmema : a ∈ presentVals (knnFeats t) 0 := by
      unfold presentVals
      rw [List.mem_filterMap]
      refine ⟨[some a, some b], ?_, rfl⟩
      rw [List.mem_iff_getElem?]
      exact ⟨i, hfeats⟩
    have hmemb : b ∈ presentVals (knnFeats t) 1 := by
      unfold presentVals
      rw [List.mem_filterMap]
      refine ⟨[some a, some b], ?_, rfl⟩
      rw [List.mem_iff_getElem?]
      exact ⟨i, hfeats⟩
    have herr : ¬ ((presentVals (knnFeats t) 0).length = 0 ∨
        (presentVals (knnFeats t) 1).length = 0) := by
      rintro (h0 | h1)
      · rw [List.length_eq_zero] at h0
        rw [h0] at hmema
        simp at hmema
      · rw [List.length_eq_zero] at h1
        rw [h1] at hmemb
        simp at hmemb
    have hstep : knnStep t = .ok (updCol (knnT1 t) "Longitude"
        (fun i _ => some (.num (knnImputeVal (knnFeats t) i 1)))) := by
      unfold knnStep
      rw [if_pos hg, if_neg herr]
    have hva : knnImputeVal (knnFeats t) i 0 = a := by
      unfold knnImputeVal
      rw [hfeats]
      rfl
    have hvb : knnImputeVal (knnFeats t) i 1 = b := by
      unfold knnImputeVal
      rw [hfeats]
      rfl
    obtain ⟨hlt, _⟩ := List.getElem?_eq_some.mp hr
    have hex : ∃ r1, (knnT1 t).rows[i]? = some r1 := by
      cases hr1c : (knnT1 t).rows[i]? with
      | none =>
        rw [List.getElem?_eq_none_iff, knnT1, updCol_rows_length] at hr1c
        omega
      | some r1 => exact ⟨r1, rfl⟩
    obtain ⟨r1, hr1⟩ := hex
    refine ⟨_, hstep, ?_, ?_⟩
    · rw [tcell_updCol_ne _ _ _ _ (by decide) i]
      rw [knnT1, tcell_updCol_self t "Latitude" _ i r hr, hva]
    · rw [tcell_updCol_self _ "Longitude" _ i r1 hr1, hvb]
  · refine ⟨t, ?_, hla, hlo⟩
    unfold knnStep
    rw [if_neg hg]

/-- Witness for C5: a table with a missing coordinate (so the imputer runs)
and a fully present row that is unchanged. -/
theorem claim_C5_knn_keeps_present_witness :
    ∃ u, knnStep tKnn_w = .ok u ∧
      tcell u 0 "Latitude" = some (.num (-62)) ∧
      tcell u 0 "Longitude" = some (.num (-58)) :=
  claim_C5_knn_keeps_present tKnn_w 0 (-62) (-58) (by decide) (by decide)

/-! ### Claim C4 -/

theorem valLE_refl (a : Val) : valLE a a := by
  have hlist : ∀ cs : List Char, listCharLE cs cs = true := by
    intro cs
    induction cs with
    | nil => rfl
    | cons x xs ih => simp [listCharLE, ih]
  cases a <;> simp [valLE, valLEb, hlist]

theorem mem_nonNull_of_cell (cells : List (Option Val)) (v : Val)
    (h : some v ∈ cells) : v ∈ nonNull cells := by
  rw [nonNull, List.mem_filterMap]
  exact ⟨some v, h, rfl⟩

theorem modeVal?_isSome (cells : List (Option Val)) (h : nonNull cells ≠ []) :
    ∃ m, modeVal? cells = some m := by
  unfold modeVal?
  have hperm := List.perm_insertionSort (modeOrd (nonNull cells)) (nonNull cells).dedup
  have hne : List.insertionSort (modeOrd (nonNull cells)) (nonNull cells).dedup ≠ [] := by
    intro he
    rw [he] at hperm
    have : (nonNull cells).dedup = [] := hperm.symm.eq_nil
    rw [List.dedup_eq_nil] at this
    exact h this
  cases hs : List.insertionSort (modeOrd (nonNull cells)) (nonNull cells).dedup with
  | nil => exact absurd hs hne
  | cons m rest => exact ⟨m, by simp [hs]⟩

theorem modeVal?_spec (cells : List (Option Val)) (m : Val)
    (h : modeVal? cells = some m) : isModeMinTie cells m := by
  unfold modeVal? at h
  have hperm := List.perm_insertionSort (modeOrd (nonNull cells)) (nonNull cells).dedup
  have hsorted := List.sorted_insertionSort (modeOrd (nonNull cells)) (nonNull cells).dedup
  cases hs : List.insertionSort (modeOrd (nonNull cells)) (nonNull cells).dedup with
  | nil => rw [hs] at h; simp at h
  | cons a rest =>
    rw [hs] at h hperm hsorted
    have ha : a = m := by simpa using h
    subst ha
    have hmem : a ∈ nonNull cells := by
      have h1 : a ∈ (nonNull cells).dedup := hperm.mem_iff.mp (by simp)
      exact List.mem_dedup.mp h1
    refine ⟨hmem, ?_⟩
    intro v hv
    have hvd : v ∈ a :: rest := hperm.mem_iff.mpr (List.mem_dedup.mpr hv)
    rcases List.mem_cons.mp hvd with rfl | hvr
    · exact ⟨le_refl _, fun _ => valLE_refl v⟩
    · have hrel : modeOrd (nonNull cells) a v := List.rel_of_sorted_cons hsorted v hvr
      rcases hrel with hlt | ⟨heq, hle⟩
      · exact ⟨le_of_lt hlt, fun he => absurd he (by omega)⟩
      · exact ⟨le_of_eq heq.symm, fun _ => hle⟩

theorem modeFillCol_ok (t : Table) (c : String) (hc : c ∈ t.cols)
    (hnn : ∃ cell ∈ colCells t c, cell.isSome) :
    ∃ u, modeFillCol t c = .ok u ∧
      u.cols = t.cols ∧
      u.rows.length = t.rows.length ∧
      (∀ c2, c2 ≠ c → ∀ i, tcell u i c2 = tcell t i c2) ∧
      (∀ i v, tcell t i c = some v → tcell u i c = some v) ∧
      (∀ i, i < t.rows.length → tcell t i c = none →
        ∃ m, modeVal? (colCells t c) = some m ∧ tcell u i c = some m) ∧
      (∀ i, i < t.rows.length → (tcell u i c).isSome) := by
  obtain ⟨cell, hcm, hcs⟩ := hnn
  obtain ⟨v, rfl⟩ := Option.isSome_iff_exists.mp hcs
  have hnne : nonNull (colCells t c) ≠ [] := by
    intro he
    have := mem_nonNull_of_cell (colCells t c) v hcm
    rw [he] at this
    simp at this
  by_cases hguard : c ∈ t.cols ∧ (colCells t c).any (fun cell => cell.isNone) = true
  · obtain ⟨m, hm⟩ := modeVal?_isSome (colCells t c) hnne
    have hstep : modeFillCol t c =
        .ok (updCol t c (fun _ r => some ((getCell t r c).getD m))) := by
      unfold modeFillCol
      rw [if_pos hguard, hm]
    refine ⟨_, hstep, updCol_cols_of_mem t c _ hc, updCol_rows_length t c _, ?_, ?_, ?_, ?_⟩
    · intro c2 hne i
      exact tcell_updCol_ne t c _ c2 hne i
    · intro i w hw
      obtain ⟨r, hr, hg⟩ := tcell_some_rows t i c w hw
      rw [tcell_updCol_self t c _ i r hr, hg]
      rfl
    · intro i hi hnone
      cases hr : t.rows[i]? with
      | none =>
        rw [List.getElem?_eq_none_iff] at hr
        omega
      | some r =>
        have hg : getCell t r c = none := by
          simpa [tcell, hr] using hnone
        refine ⟨m, hm, ?_⟩
        rw [tcell_updCol_self t c _ i r hr, hg]
        rfl
    · intro i hi
      cases hr : t.rows[i]? with
      | none =>
        rw [List.getElem?_eq_none_iff] at hr
        omega
      | some r =>
        rw [tcell_updCol_self t c _ i r hr]
        rfl
  · have hstep : modeFillCol t c = .ok t := by
      unfold modeFillCol
      rw [if_neg hguard]
    have hnonone : ∀ i, i < t.rows.length → tcell t i c ≠ none := by
      intro i hi hnone
      apply hguard
      refine ⟨hc, ?_⟩
      rw [List.any_eq_true]
      exact ⟨none, hnone ▸ tcell_mem_colCells t c i hi, rfl⟩
    refine ⟨t, hstep, rfl, rfl, fun _ _ _ => rfl, fun _ _ h => h, ?_, ?_⟩
    · intro i hi hnone
      exact absurd hnone (hnonone i hi)
    · intro i hi
      cases hcell : tcell t i c with
      | none => exact absurd hcell (hnonone i hi)
      | some w => rfl

/-- C4 counterexample: in the column `["b", "a", null]` both values are tied
with multiplicity one; the claim's tie-break (first encountered in native
order) picks "b", but the script fills with `mode()[0]`, which is the
sorted-first value "a". -/
theorem claim_C4_modefill_counterexample :
    modeFillCol tMode_x "Sex" = .ok uMode_x ∧
    tcell uMode_x 2 "Sex" = some (.str "a") ∧
    firstEncounteredMode (colCells tMode_x "Sex") = some (.str "b") ∧
    Val.str "a" ≠ Val.str "b" :=
  ⟨by decide, by decide, by decide, by decide⟩

/-- C4 amended: for a designated categorical column that is present and has at
least one non-null value, mode imputation succeeds, afterwards the column has
no nulls, non-null cells are unchanged, and every former null holds the most
frequent non-null value with ties broken by the smallest tied value in the
sort order pandas uses (`Series.mode` returns the modes sorted and the script
takes `mode()[0]`), not by first encounter. -/
theorem claim_C4_modefill_amended (t : Table) (c : String) (hc : c ∈ t.cols)
    (hnn : ∃ cell ∈ colCells t c, cell.isSome) :
    ∃ u, modeFillCol t c = .ok u ∧
      u.rows.length = t.rows.length ∧
      (∀ i, i < t.rows.length → (tcell u i c).isSome) ∧
      (∀ i v, tcell t i c = some v → tcell u i c = some v) ∧
      (∀ i, i < t.rows.length → tcell t i c = none →
        ∃ m, tcell u i c = some m ∧ isModeMinTie (colCells t c) m) := by
  obtain ⟨u, hstep, _, hlen, _, hkeep, hfill, hsome⟩ := modeFillCol_ok t c hc hnn
  refine ⟨u, hstep, hlen, hsome, hkeep, ?_⟩
  intro i hi hnone
  obtain ⟨m, hm, hcell⟩ := hfill i hi hnone
  exact ⟨m, hcell, modeVal?_spec (colCells t c) m hm⟩

/-- Witness for C4 on a column with one non-null value and one null. -/
theorem claim_C4_modefill_amended_witness :
    ∃ u, modeFillCol tMode_w "Age" = .ok u ∧
      u.rows.length = tMode_w.rows.length ∧
      (∀ i, i < tMode_w.rows.length → (tcell u i "Age").isSome) ∧
      (∀ i v, tcell tMode_w i "Age" = some v → tcell u i "Age" = some v) ∧
      (∀ i, i < tMode_w.rows.length → tcell tMode_w i "Age" = none →
        ∃ m, tcell u i "Age" = some m ∧ isModeMinTie (colCells tMode_w "Age") m) :=
  claim_C4_modefill_amended tMode_w "Age" (by decide)
    ⟨some (.str "x"), by decide, by decide⟩

/-! ### Claim C1 -/

theorem zip_getElem?_some {α β : Type} (l : List α) (l2 : List β) (i : Nat) (a : α) (b : β)
    (h1 : l[i]? = some a) (h2 : l2[i]? = some b) : (l.zip l2)[i]? = some (a, b) := by
  induction l generalizing l2 i with
  | nil => simp at h1
  | cons x xs ih =>
    cases l2 with
    | nil => simp at h2
    | cons y ys =>
      cases i with
      | zero =>
        simp only [List.getElem?_cons_zero, Option.some.injEq] at h1 h2
        subst h1
        subst h2
        simp [List.zip_cons_cons]
      | succ k =>
        simp only [List.getElem?_cons_succ] at h1 h2
        simpa [List.zip_cons_cons] using ih ys k h1 h2

theorem sortedDistinct_nodup (t : Table) (c : String) : (sortedDistinct t c).Nodup :=
  ((List.perm_insertionSort valLE (nonNull (colCells t c)).dedup).nodup_iff).mpr
    (List.nodup_dedup (nonNull (colCells t c)))

theorem mem_sortedDistinct (t : Table) (c : String) (v : Val) :
    v ∈ sortedDistinct t c ↔ v ∈ nonNull (colCells t c) :=
  ((List.perm_insertionSort valLE (nonNull (colCells t c)).dedup).mem_iff).trans
    List.mem_dedup

theorem getCell_mem_sortedDistinct (t : Table) (r : List (Option Val)) (c : String)
    (v : Val) (hr : r ∈ t.rows) (hg : getCell t r c = some v) :
    v ∈ sortedDistinct t c := by
  rw [mem_sortedDistinct]
  apply mem_nonNull_of_cell
  rw [← hg]
  exact List.mem_map_of_mem _ hr

theorem dummyRow_countP (ds : List Val) (cell : Option Val) (hnd : ds.Nodup)
    (hmem : ∀ v, cell = some v → v ∈ ds) :
    (dummyRow ds cell).countP (fun x => decide (x = some (Val.bool true))) = 1 := by
  unfold dummyRow
  rw [List.countP_append, List.countP_map]
  cases cell with
  | none =>
    have h1 : ds.countP ((fun x => decide (x = some (Val.bool true))) ∘
        (fun d => some (Val.bool (decide ((none : Option Val) = some d))))) = 0 := by
      apply List.countP_eq_zero.mpr
      intro d _
      show ¬ decide (some (Val.bool (decide ((none : Option Val) = some d))) =
        some (Val.bool true)) = true
      simp only [decide_eq_true_eq, Option.some.injEq, Val.bool.injEq]
      exact fun hcon => Option.noConfusion hcon
    rw [h1]
    rfl
  | some v =>
    have h1 : ds.countP ((fun x => decide (x = some (Val.bool true))) ∘
        (fun d => some (Val.bool (decide (some v = some d))))) = ds.count v := by
      rw [List.count_eq_countP]
      apply List.countP_congr
      intro d _
      show decide (some (Val.bool (decide (some v = some d))) = some (Val.bool true)) =
        true ↔ (d == v) = true
      simp only [decide_eq_true_eq, Option.some.injEq, Val.bool.injEq, beq_iff_eq]
      exact eq_comm
    rw [h1, List.count_eq_one_of_mem hnd (hmem v rfl)]
    rfl

theorem dropCats_rows_length (t : Table) : (dropCats t).rows.length = t.rows.length := by
  simp [dropCats, dropCol_rows_length]

/-- C1: for every table the one-hot encoder accepts, every encoded categorical
column and every row: exactly one of the indicator cells (one per observed
distinct value plus the trailing missing indicator) is true; the trailing
missing indicator is the true one exactly when the value was missing at
encoding time; and the encoder output row is the stripped row followed by
exactly these indicator cells. -/
theorem claim_C1_one_hot_exactly_one (t u : Table) (henc : encodeStep t = .ok u) :
    ∀ c ∈ categorical_cols, ∀ r ∈ t.rows,
      (dummyRow (sortedDistinct t c) (getCell t r c)).countP
          (fun x => decide (x = some (Val.bool true))) = 1 ∧
      ((dummyRow (sortedDistinct t c) (getCell t r c)).getLast? =
          some (some (Val.bool true)) ↔ getCell t r c = none) ∧
      (∀ i : Nat, t.rows[i]? = some r → ∃ pre : List (Option Val), u.rows[i]? = some (pre ++ encodedCells t r)) := by
  intro c hc r hr
  refine ⟨?_, ?_, ?_⟩
  · exact dummyRow_countP (sortedDistinct t c) (getCell t r c) (sortedDistinct_nodup t c)
      (fun v hv => getCell_mem_sortedDistinct t r c v hr hv)
  · unfold dummyRow
    rw [List.getLast?_concat]
    constructor
    · intro h
      simp only [Option.some.injEq, Val.bool.injEq] at h
      exact Option.isNone_iff_eq_none.mp h
    · intro h
      rw [h]
      rfl
  · intro i hi
    have hu : u.rows = ((dropCats t).rows.zip t.rows).map
        (fun p => p.1 ++ encodedCells t p.2) := by
      unfold encodeStep at henc
      split at henc
      · have := Except.ok.inj henc
        rw [← this]
      · exact absurd henc (by simp)
    obtain ⟨hlt, _⟩ := List.getElem?_eq_some.mp hi
    have hpre : ∃ pre, (dropCats t).rows[i]? = some pre := by
      cases hp : (dropCats t).rows[i]? with
      | none =>
        rw [List.getElem?_eq_none_iff, dropCats_rows_length] at hp
        omega
      | some pre => exact ⟨pre, rfl⟩
    obtain ⟨pre, hp⟩ := hpre
    refine ⟨pre, ?_⟩
    rw [hu, List.getElem?_map, zip_getElem?_some _ _ i pre r hp hi]
    rfl

/-- Witness for C1 on a concrete table with one row (one categorical value
missing, so the missing-indicator branch is exercised). -/
theorem claim_C1_one_hot_exactly_one_witness :
    (dummyRow (sortedDistinct tEnc_w "Sex") (getCell tEnc_w rowEnc_w "Sex")).countP
        (fun x => decide (x = some (Val.bool true))) = 1 ∧
    ((dummyRow (sortedDistinct tEnc_w "Sex") (getCell tEnc_w rowEnc_w "Sex")).getLast? =
        some (some (Val.bool true)) ↔ getCell tEnc_w rowEnc_w "Sex" = none) ∧
    (∀ i : Nat, tEnc_w.rows[i]? = some rowEnc_w →
      ∃ pre : List (Option Val), uEnc_w.rows[i]? = some (pre ++ encodedCells tEnc_w rowEnc_w)) :=
  claim_C1_one_hot_exactly_one tEnc_w uEnc_w (by decide) "Sex" (by decide)
    rowEnc_w (by decide)

/-! ### Row-count preservation of the pipeline steps (claim C9) -/

theorem dateStep_ok_length (t u : Table) (h : dateStep t = .ok u) :
    u.rows.length = t.rows.length := by
  unfold dateStep at h
  split at h
  · rw [← Except.ok.inj h, updCol_rows_length]
  · exact absurd h (by simp)

theorem timeT3_rows_length (t : Table) : (timeT3 t).rows.length = t.rows.length := by
  unfold timeT3 timeT2 timeT1
  rw [updCol_rows_length, updCol_rows_length, updCol_rows_length]

theorem timeStep_ok_length (t u : Table) (h : timeStep t = .ok u) :
    u.rows.length = t.rows.length := by
  unfold timeStep at h
  split at h
  · split at h
    · exact absurd h (by simp)
    · split at h
      · exact absurd h (by simp)
      · split at h
        · exact absurd h (by simp)
        · split at h
          · exact absurd h (by simp)
          · rw [← Except.ok.inj h]
            simp only [dropCol_rows_length, timeT4, updCol_rows_length]
            exact timeT3_rows_length t
  · rw [← Except.ok.inj h]

theorem toNumOne_length (t : Table) (c : String) :
    (toNumOne t c).rows.length = t.rows.length := by
  unfold toNumOne
  split
  · exact updCol_rows_length t c _
  · rfl

theorem toNumericStep_length (t : Table) :
    (toNumericStep t).rows.length = t.rows.length := by
  unfold toNumericStep
  rw [toNumOne_length, toNumOne_length]

theorem modeFillCol_ok_length (t u : Table) (c : String) (h : modeFillCol t c = .ok u) :
    u.rows.length = t.rows.length := by
  unfold modeFillCol at h
  split at h
  · split at h
    · rw [← Except.ok.inj h, updCol_rows_length]
    · exact absurd h (by simp)
  · rw [← Except.ok.inj h]

theorem bind_ok_congr {ε α β : Type} (a : Except ε α) (x : α) (f : α → Except ε β)
    (h : a = .ok x) : (a >>= f) = f x := by
  rw [h]
  rfl

theorem exceptBind_ok {ε α β : Type} (a : Except ε α) (f : α → Except ε β) (u : β)
    (h : a >>= f = .ok u) : ∃ x, a = .ok x ∧ f x = .ok u := by
  cases a with
  | error e => exact absurd h (by simp [Bind.bind, Except.bind])
  | ok x => exact ⟨x, rfl, by simpa [Bind.bind, Except.bind] using h⟩

theorem modeFill_ok_length (t u : Table) (h : modeFill t = .ok u) :
    u.rows.length = t.rows.length := by
  unfold modeFill at h
  obtain ⟨t1, h1, h⟩ := exceptBind_ok _ _ _ h
  obtain ⟨t2, h2, h⟩ := exceptBind_ok _ _ _ h
  obtain ⟨t3, h3, h⟩ := exceptBind_ok _ _ _ h
  calc u.rows.length = t3.rows.length := modeFillCol_ok_length t3 u _ h
    _ = t2.rows.length := modeFillCol_ok_length t2 t3 _ h3
    _ = t1.rows.length := modeFillCol_ok_length t1 t2 _ h2
    _ = t.rows.length := modeFillCol_ok_length t t1 _ h1

theorem knnStep_ok_length (t u : Table) (h : knnStep t = .ok u) :
    u.rows.length = t.rows.length := by
  unfold knnStep at h
  split at h
  · split at h
    · exact absurd h (by simp)
    · rw [← Except.ok.inj h, updCol_rows_length, knnT1, updCol_rows_length]
  · rw [← Except.ok.inj h]

theorem distanceStep_ok_length (t u : Table) (h : distanceStep t = .ok u) :
    u.rows.length = t.rows.length := by
  unfold distanceStep at h
  split at h
  · exact absurd h (by simp)
  · split at h
    · exact absurd h (by simp)
    · rw [← Except.ok.inj h, updCol_rows_length]

theorem temporalStep_length (t : Table) :
    (temporalStep t).rows.length = t.rows.length := by
  unfold temporalStep
  split
  · rw [updCol_rows_length, tempT2, updCol_rows_length, tempT1, updCol_rows_length]
  · rfl

theorem encodeStep_ok_length (t u : Table) (h : encodeStep t = .ok u) :
    u.rows.length = t.rows.length := by
  unfold encodeStep at h
  split at h
  · rw [← Except.ok.inj h]
    simp [List.length_zip, dropCats_rows_length]
  · exact absurd h (by simp)

theorem normalizeStep_ok_length (t u : Table) (h : normalizeStep t = .ok u) :
    u.rows.length = t.rows.length := by
  unfold normalizeStep at h
  split at h
  · split at h
    · exact absurd h (by simp)
    · rw [← Except.ok.inj h, updCol_rows_length]
  · rw [← Except.ok.inj h]

theorem processData_ok_length (t u : Table) (h : processData t = .ok u) :
    u.rows.length = t.rows.length := by
  unfold processData at h
  obtain ⟨t1, h1, h⟩ := exceptBind_ok _ _ _ h
  obtain ⟨t2, h2, h⟩ := exceptBind_ok _ _ _ h
  obtain ⟨t4, h4, h⟩ := exceptBind_ok _ _ _ h
  obtain ⟨t5, h5, h⟩ := exceptBind_ok _ _ _ h
  obtain ⟨t6, h6, h⟩ := exceptBind_ok _ _ _ h
  obtain ⟨t8, h8, h⟩ := exceptBind_ok _ _ _ h
  calc u.rows.length
      = t8.rows.length := normalizeStep_ok_length t8 u h
    _ = (temporalStep t6).rows.length := encodeStep_ok_length _ t8 h8
    _ = t6.rows.length := temporalStep_length t6
    _ = t5.rows.length := distanceStep_ok_length t5 t6 h6
    _ = t4.rows.length := knnStep_ok_length t4 t5 h5
    _ = (toNumericStep t2).rows.length := modeFill_ok_length _ t4 h4
    _ = t2.rows.length := toNumericStep_length t2
    _ = t1.rows.length := timeStep_ok_length t1 t2 h2
    _ = t.rows.length := dateStep_ok_length t t1 h1

/-- C9: every step of the processing pipeline after loading preserves the row
count — date parsing, time composition, numeric coercion, mode imputation,
KNN imputation, distance derivation, temporal features, one-hot encoding and
normalization all return as many rows as they receive, and so does the whole
pipeline whenever it completes. -/
theorem claim_C9_row_count_preserved :
    (∀ t u : Table, dateStep t = .ok u → u.rows.length = t.rows.length) ∧
    (∀ t u : Table, timeStep t = .ok u → u.rows.length = t.rows.length) ∧
    (∀ t : Table, (toNumericStep t).rows.length = t.rows.length) ∧
    (∀ t u : Table, modeFill t = .ok u → u.rows.length = t.rows.length) ∧
    (∀ t u : Table, knnStep t = .ok u → u.rows.length = t.rows.length) ∧
    (∀ t u : Table, distanceStep t = .ok u → u.rows.length = t.rows.length) ∧
    (∀ t : Table, (temporalStep t).rows.length = t.rows.length) ∧
    (∀ t u : Table, encodeStep t = .ok u → u.rows.length = t.rows.length) ∧
    (∀ t u : Table, normalizeStep t = .ok u → u.rows.length = t.rows.length) ∧
    (∀ t u : Table, processData t = .ok u → u.rows.length = t.rows.length) :=
  ⟨dateStep_ok_length, timeStep_ok_length, toNumericStep_length, modeFill_ok_length,
   knnStep_ok_length, distanceStep_ok_length, temporalStep_length, encodeStep_ok_length,
   normalizeStep_ok_length, processData_ok_length⟩

/-- Witness for C9: the date step on a concrete one-row table. -/
theorem claim_C9_row_count_preserved_witness : uDate_w.rows.length = tDate_w.rows.length :=
  claim_C9_row_count_preserved.1 tDate_w uDate_w (by decide)

/-! ### Claim C2 -/

theorem dateStep_ok_cases (t t1 : Table) (h : dateStep t = .ok t1) :
    "DateGMT" ∈ t.cols ∧
    t1 = updCol t "DateGMT" (fun _ r => parseDateCell (getCell t r "DateGMT")) := by
  unfold dateStep at h
  split at h
  next hmem => exact ⟨hmem, (Except.ok.inj h).symm⟩
  next => exact absurd h (by simp)

theorem timeStep_skip (t : Table) (h : "TimeGMT" ∉ t.cols) : timeStep t = .ok t := by
  unfold timeStep
  rw [if_neg h]

theorem timeStep_ok_cases (t u : Table) (hmem : "TimeGMT" ∈ t.cols)
    (h : timeStep t = .ok u) :
    u = dropCol (dropCol (dropCol (timeT4 t) "hour") "minute") "second" := by
  unfold timeStep at h
  rw [if_pos hmem] at h
  split at h
  · exact absurd h (by simp)
  · split at h
    · exact absurd h (by simp)
    · split at h
      · exact absurd h (by simp)
      · split at h
        · exact absurd h (by simp)
        · exact (Except.ok.inj h).symm

theorem timeT3_tcell_ne (t : Table) (c : String) (h1 : c ≠ "hour") (h2 : c ≠ "minute")
    (h3 : c ≠ "second") (i : Nat) : tcell (timeT3 t) i c = tcell t i c := by
  unfold timeT3 timeT2 timeT1
  rw [tcell_updCol_ne _ _ _ _ h3, tcell_updCol_ne _ _ _ _ h2, tcell_updCol_ne _ _ _ _ h1]

/-- C2 counterexample: on a table whose time-of-day value has non-numeric
components, the timestamp-composition phase raises (the `astype(float)` of
the split components is a `ValueError`), so the step is not raise-free. -/
theorem claim_C2_timestamp_counterexample :
    dateTimeSteps tTime_x = .error .valueError := by decide

/-- C2 amended: date parsing itself never raises when the date column exists
(unparseable dates are coerced to missing), and whenever the composition
phase completes, every row whose date value did not parse has a missing
result: a missing `DateGMT` value when no time-of-day column exists, and a
missing composed `Timestamp` when it does.  However the phase as a whole can
raise when the time-of-day column is present with malformed values (see the
counterexample), so it is raise-free only without that column. -/
theorem claim_C2_timestamp_amended :
    (∀ t : Table, "DateGMT" ∈ t.cols → ∃ u, dateStep t = .ok u) ∧
    (∀ t : Table, "DateGMT" ∈ t.cols → "TimeGMT" ∉ t.cols →
      ∃ u, dateTimeSteps t = .ok u) ∧
    (∀ t u : Table, dateTimeSteps t = .ok u → "TimeGMT" ∉ t.cols →
      ∀ i : Nat, i < t.rows.length → parseDateCell (tcell t i "DateGMT") = none →
        tcell u i "DateGMT" = none) ∧
    (∀ t u : Table, dateTimeSteps t = .ok u → "TimeGMT" ∈ t.cols →
      ∀ i : Nat, i < t.rows.length → parseDateCell (tcell t i "DateGMT") = none →
        tcell u i "Timestamp" = none) := by
  have hdate : ∀ t : Table, "DateGMT" ∈ t.cols →
      dateStep t = .ok (updCol t "DateGMT" (fun _ r => parseDateCell (getCell t r "DateGMT"))) := by
    intro t h
    unfold dateStep
    rw [if_pos h]
  refine ⟨?_, ?_, ?_, ?_⟩
  · intro t h
    exact ⟨_, hdate t h⟩
  · intro t hd ht
    have hskip : timeStep (updCol t "DateGMT"
        (fun _ r => parseDateCell (getCell t r "DateGMT"))) =
        .ok (updCol t "DateGMT" (fun _ r => parseDateCell (getCell t r "DateGMT"))) := by
      apply timeStep_skip
      rw [updCol_cols_of_mem t "DateGMT" _ hd]
      exact ht
    refine ⟨updCol t "DateGMT" (fun _ r => parseDateCell (getCell t r "DateGMT")), ?_⟩
    unfold dateTimeSteps
    rw [hdate t hd]
    simpa [Bind.bind, Except.bind] using hskip
  · intro t u h ht i hi hp
    obtain ⟨t1, h1, h2⟩ := exceptBind_ok _ _ _ h
    obtain ⟨hd, rfl⟩ := dateStep_ok_cases t t1 h1
    have ht1 : "TimeGMT" ∉ (updCol t "DateGMT"
        (fun _ r => parseDateCell (getCell t r "DateGMT"))).cols := by
      rw [updCol_cols_of_mem t "DateGMT" _ hd]
      exact ht
    have hu : u = updCol t "DateGMT" (fun _ r => parseDateCell (getCell t r "DateGMT")) := by
      have := timeStep_skip _ ht1
      rw [this] at h2
      exact (Except.ok.inj h2).symm
    subst hu
    cases hr : t.rows[i]? with
    | none =>
      rw [List.getElem?_eq_none_iff] at hr
      omega
    | some r =>
      rw [tcell_updCol_self t "DateGMT" _ i r hr]
      rw [show tcell t i "DateGMT" = getCell t r "DateGMT" by simp [tcell, hr]] at hp
      exact hp
  · intro t u h ht i hi hp
    obtain ⟨t1, h1, h2⟩ := exceptBind_ok _ _ _ h
    obtain ⟨hd, rfl⟩ := dateStep_ok_cases t t1 h1
    set t1 := updCol t "DateGMT" (fun _ r => parseDateCell (getCell t r "DateGMT")) with ht1def
    have ht1 : "TimeGMT" ∈ t1.cols := by
      rw [ht1def, updCol_cols_of_mem t "DateGMT" _ hd]
      exact ht
    have hu := timeStep_ok_cases t1 u ht1 h2
    subst hu
    rw [tcell_dropCol_ne _ _ _ (by decide), tcell_dropCol_ne _ _ _ (by decide),
        tcell_dropCol_ne _ _ _ (by decide)]
    have hlen3 : i < (timeT3 t1).rows.length := by
      rw [timeT3_rows_length, ht1def, updCol_rows_length]
      exact hi
    cases hr3 : (timeT3 t1).rows[i]? with
    | none =>
      rw [List.getElem?_eq_none_iff] at hr3
      omega
    | some r3 =>
      unfold timeT4
      rw [tcell_updCol_self (timeT3 t1) "Timestamp" _ i r3 hr3]
      have hdate3 : getCell (timeT3 t1) r3 "DateGMT" = none := by
        have he1 : tcell (timeT3 t1) i "DateGMT" = getCell (timeT3 t1) r3 "DateGMT" := by
          simp [tcell, hr3]
        have he2 : tcell (timeT3 t1) i "DateGMT" = tcell t1 i "DateGMT" :=
          timeT3_tcell_ne t1 "DateGMT" (by decide) (by decide) (by decide) i
        cases hr : t.rows[i]? with
        | none =>
          rw [List.getElem?_eq_none_iff] at hr
          omega
        | some r =>
          have he3 : tcell t1 i "DateGMT" = parseDateCell (getCell t r "DateGMT") := by
            rw [ht1def]
            exact tcell_updCol_self t "DateGMT" _ i r hr
          rw [show tcell t i "DateGMT" = getCell t r "DateGMT" by simp [tcell, hr]] at hp
          rw [← he1, he2, he3, hp]
      rw [hdate3]
      rfl

/-- Witness for C2: a table whose only date value is the invalid 31/02/2021
and no time column; the phase completes and the cell is missing. -/
theorem claim_C2_timestamp_amended_witness : tcell uDate_w 0 "DateGMT" = none :=
  claim_C2_timestamp_amended.2.2.1 tDate_w uDate_w (by decide) (by decide) 0
    (by decide) (by decide)

/-! ### Claim C3: step success and preservation kit -/

theorem tcell_some_col_mem (t : Table) (i : Nat) (c : String) (v : Val)
    (h : tcell t i c = some v) : c ∈ t.cols := by
  obtain ⟨r, _, hg⟩ := tcell_some_rows t i c v h
  unfold getCell at hg
  cases hf : findCol t.cols c with
  | none => rw [hf] at hg; exact absurd hg (by simp)
  | some j => exact (findCol_isSome_iff _ _).mp (by simp [hf])

theorem exists_isSome_transfer (t u : Table) (c : String)
    (hlen : u.rows.length = t.rows.length)
    (hpres : ∀ i, tcell u i c = tcell t i c)
    (h : ∃ cell ∈ colCells t c, cell.isSome) :
    ∃ cell ∈ colCells u c, cell.isSome := by
  rw [colCells_ext u t c hlen hpres]
  exact h

theorem exists_num_transfer (t u : Table) (c : String)
    (hpres : ∀ i, tcell u i c = tcell t i c)
    (h : ∃ i : Nat, ∃ q : ℚ, tcell t i c = some (.num q)) :
    ∃ i : Nat, ∃ q : ℚ, tcell u i c = some (.num q) := by
  obtain ⟨i, q, hq⟩ := h
  exact ⟨i, q, by rw [hpres i, hq]⟩

theorem cat_ne_special (c : String) (hc : c ∈ categorical_cols) :
    c ≠ "DateGMT" ∧ c ≠ "TimeGMT" ∧ c ≠ "Latitude" ∧ c ≠ "Longitude" ∧
    c ≠ "distance_to_colony_km" ∧ c ≠ "Timestamp" ∧ c ≠ "season" := by
  fin_cases hc <;> exact ⟨by decide, by decide, by decide, by decide, by decide,
    by decide, by decide⟩

theorem toNumOne_cols (t : Table) (c : String) : (toNumOne t c).cols = t.cols := by
  unfold toNumOne
  split
  next h => exact updCol_cols_of_mem t c _ h
  next => rfl

theorem toNumericStep_cols (t : Table) : (toNumericStep t).cols = t.cols := by
  unfold toNumericStep
  rw [toNumOne_cols, toNumOne_cols]

theorem toNumOne_tcell_ne (t : Table) (c c2 : String) (hne : c2 ≠ c) (i : Nat) :
    tcell (toNumOne t c) i c2 = tcell t i c2 := by
  unfold toNumOne
  split
  · exact tcell_updCol_ne t c _ c2 hne i
  · rfl

theorem toNumOne_tcell_num (t : Table) (c : String) (i : Nat) (q : ℚ)
    (h : tcell t i c = some (.num q)) : tcell (toNumOne t c) i c = some (.num q) := by
  have hmem : c ∈ t.cols := tcell_some_col_mem t i c _ h
  obtain ⟨r, hr, hg⟩ := tcell_some_rows t i c _ h
  unfold toNumOne
  rw [if_pos hmem, tcell_updCol_self t c _ i r hr, hg]
  rfl

theorem toNumericStep_tcell_ne (t : Table) (c2 : String) (h1 : c2 ≠ "Latitude")
    (h2 : c2 ≠ "Longitude") (i : Nat) :
    tcell (toNumericStep t) i c2 = tcell t i c2 := by
  unfold toNumericStep
  rw [toNumOne_tcell_ne _ _ _ h2, toNumOne_tcell_ne _ _ _ h1]

theorem modeFill_ok_of (t : Table)
    (hcats : ∀ c ∈ categorical_cols, c ∈ t.cols)
    (hvals : ∀ c ∈ categorical_cols, ∃ cell ∈ colCells t c, cell.isSome) :
    ∃ u, modeFill t = .ok u ∧ u.cols = t.cols ∧ u.rows.length = t.rows.length ∧
      (∀ c2, c2 ∉ categorical_cols → ∀ i, tcell u i c2 = tcell t i c2) := by
  obtain ⟨u1, h1, h1c, h1l, h1p, _, _, _⟩ :=
    modeFillCol_ok t "Sex" (hcats "Sex" (by decide)) (hvals "Sex" (by decide))
  obtain ⟨u2, h2, h2c, h2l, h2p, _, _, _⟩ :=
    modeFillCol_ok u1 "Age" (by rw [h1c]; exact hcats "Age" (by decide))
      (exists_isSome_transfer t u1 "Age" h1l (h1p "Age" (by decide))
        (hvals "Age" (by decide)))
  obtain ⟨u3, h3, h3c, h3l, h3p, _, _, _⟩ :=
    modeFillCol_ok u2 "Breed Stage" (by rw [h2c, h1c]; exact hcats "Breed Stage" (by decide))
      (exists_isSome_transfer u1 u2 "Breed Stage" h2l (h2p "Breed Stage" (by decide))
        (exists_isSome_transfer t u1 "Breed Stage" h1l (h1p "Breed Stage" (by decide))
          (hvals "Breed Stage" (by decide))))
  obtain ⟨u4, h4, h4c, h4l, h4p, _, _, _⟩ :=
    modeFillCol_ok u3 "ArgosQuality"
      (by rw [h3c, h2c, h1c]; exact hcats "ArgosQuality" (by decide))
      (exists_isSome_transfer u2 u3 "ArgosQuality" h3l (h3p "ArgosQuality" (by decide))
        (exists_isSome_transfer u1 u2 "ArgosQuality" h2l (h2p "ArgosQuality" (by decide))
          (exists_isSome_transfer t u1 "ArgosQuality" h1l (h1p "ArgosQuality" (by decide))
            (hvals "ArgosQuality" (by decide)))))
  refine ⟨u4, ?_, by rw [h4c, h3c, h2c, h1c], by rw [h4l, h3l, h2l, h1l], ?_⟩
  · unfold modeFill
    simp only [bind_ok_congr _ _ _ h1, bind_ok_congr _ _ _ h2, bind_ok_congr _ _ _ h3]
    exact h4
  · intro c2 hc2 i
    have hne : c2 ≠ "Sex" ∧ c2 ≠ "Age" ∧ c2 ≠ "Breed Stage" ∧ c2 ≠ "ArgosQuality" := by
      refine ⟨?_, ?_, ?_, ?_⟩ <;> intro he <;> subst he <;> exact hc2 (by decide)
    rw [h4p c2 hne.2.2.2 i, h3p c2 hne.2.2.1 i, h2p c2 hne.2.1 i, h1p c2 hne.1 i]

theorem knnStep_ok_of (t : Table)
    (ha : ∃ i : Nat, ∃ q : ℚ, tcell t i "Latitude" = some (.num q))
    (hb : ∃ i : Nat, ∃ q : ℚ, tcell t i "Longitude" = some (.num q)) :
    ∃ u, knnStep t = .ok u ∧ u.cols = t.cols ∧ u.rows.length = t.rows.length ∧
      (∀ c2, c2 ≠ "Latitude" → c2 ≠ "Longitude" → ∀ i, tcell u i c2 = tcell t i c2) := by
  obtain ⟨ia, qa, hqa⟩ := ha
  obtain ⟨ib, qb, hqb⟩ := hb
  have hmema : qa ∈ presentVals (knnFeats t) 0 := by
    obtain ⟨r, hr, hg⟩ := tcell_some_rows t ia "Latitude" _ hqa
    unfold presentVals
    rw [List.mem_filterMap]
    refine ⟨featRow t r, ?_, by simp [featRow, hg, coordQ]⟩
    rw [List.mem_iff_getElem?]
    exact ⟨ia, by rw [knnFeats, List.getElem?_map, hr]; rfl⟩
  have hmemb : qb ∈ presentVals (knnFeats t) 1 := by
    obtain ⟨r, hr, hg⟩ := tcell_some_rows t ib "Longitude" _ hqb
    unfold presentVals
    rw [List.mem_filterMap]
    refine ⟨featRow t r, ?_, by simp [featRow, hg, coordQ]⟩
    rw [List.mem_iff_getElem?]
    exact ⟨ib, by rw [knnFeats, List.getElem?_map, hr]; rfl⟩
  by_cases hg : ("Latitude" ∈ t.cols ∧ "Longitude" ∈ t.cols) ∧
      t.rows.any (fun r => (featRow t r).any (fun x => x.isNone)) = true
  · have herr : ¬ ((presentVals (knnFeats t) 0).length = 0 ∨
        (presentVals (knnFeats t) 1).length = 0) := by
      rintro (h0 | h1)
      · rw [List.length_eq_zero] at h0
        rw [h0] at hmema
        simp at hmema
      · rw [List.length_eq_zero] at h1
        rw [h1] at hmemb
        simp at hmemb
    have hstep : knnStep t = .ok (updCol (knnT1 t) "Longitude"
        (fun i _ => some (.num (knnImputeVal (knnFeats t) i 1)))) := by
      unfold knnStep
      rw [if_pos hg, if_neg herr]
    have hc1 : (knnT1 t).cols = t.cols := updCol_cols_of_mem t "Latitude" _ hg.1.1
    have hc2 : (updCol (knnT1 t) "Longitude"
        (fun i _ => some (.num (knnImputeVal (knnFeats t) i 1)))).cols = (knnT1 t).cols :=
      updCol_cols_of_mem (knnT1 t) "Longitude" _ (by rw [hc1]; exact hg.1.2)
    refine ⟨_, hstep, by rw [hc2, hc1], ?_, ?_⟩
    · rw [updCol_rows_length, knnT1, updCol_rows_length]
    · intro c2 hne1 hne2 i
      rw [tcell_updCol_ne _ _ _ _ hne2, knnT1, tcell_updCol_ne _ _ _ _ hne1]
  · refine ⟨t, ?_, rfl, rfl, fun _ _ _ _ => rfl⟩
    unfold knnStep
    rw [if_neg hg]

theorem distanceStep_ok_of (t : Table) (hla : "Latitude" ∈ t.cols)
    (hlo : "Longitude" ∈ t.cols) :
    distanceStep t = .ok (updCol t "distance_to_colony_km" (fun _ r =>
      match getCell t r "Latitude", getCell t r "Longitude" with
      | some (.num a), some (.num b) => some (.num (geodesic_km a b))
      | _, _ => none)) := by
  unfold distanceStep
  rw [if_neg (by simp [hla]), if_neg (by simp [hlo])]

theorem temporalStep_skip (t : Table) (h : "Timestamp" ∉ t.cols) : temporalStep t = t := by
  unfold temporalStep
  rw [if_neg h]

theorem encodeStep_ok_of (t : Table) (h : ∀ c ∈ categorical_cols, c ∈ t.cols) :
    encodeStep t = .ok ⟨(dropCats t).cols ++ dummyColNames t,
      ((dropCats t).rows.zip t.rows).map (fun p => p.1 ++ encodedCells t p.2)⟩ := by
  unfold encodeStep
  rw [if_pos]
  rw [List.all_eq_true]
  intro c hc
  exact decide_eq_true (h c hc)

theorem mem_dropCats_cols (t : Table) (c2 : String) (h : c2 ∉ categorical_cols) :
    c2 ∈ (dropCats t).cols ↔ c2 ∈ t.cols := by
  have hne : c2 ≠ "Sex" ∧ c2 ≠ "Age" ∧ c2 ≠ "Breed Stage" ∧ c2 ≠ "ArgosQuality" := by
    refine ⟨?_, ?_, ?_, ?_⟩ <;> intro he <;> subst he <;> exact h (by decide)
  unfold dropCats
  rw [mem_dropCol_cols _ _ _ hne.2.2.2, mem_dropCol_cols _ _ _ hne.2.2.1,
      mem_dropCol_cols _ _ _ hne.2.1, mem_dropCol_cols _ _ _ hne.1]

theorem head_append (c s : String) (ch : Char) (h : c.data.head? = some ch) :
    (c ++ s).data.head? = some ch := by
  rw [String.data_append]
  cases hc : c.data with
  | nil => rw [hc] at h; simp at h
  | cons x xs =>
    rw [hc] at h
    simp only [List.head?_cons, Option.some.injEq] at h
    simp [h]

theorem dummy_name_head (t : Table) (c2 : String) (hmem : c2 ∈ dummyColNames t) :
    c2.data.head? = some 'S' ∨ c2.data.head? = some 'A' ∨ c2.data.head? = some 'B' := by
  unfold dummyColNames at hmem
  rw [List.mem_flatMap] at hmem
  obtain ⟨c, hc, hin⟩ := hmem
  rw [List.mem_append] at hin
  have hform : ∃ s : String, c2 = c ++ s := by
    rcases hin with hin | hin
    · rw [List.mem_map] at hin
      obtain ⟨v, _, hv⟩ := hin
      exact ⟨"_" ++ showVal v, by rw [← hv, String.append_assoc]⟩
    · rw [List.mem_singleton] at hin
      exact ⟨"_nan", hin⟩
  obtain ⟨s, rfl⟩ := hform
  fin_cases hc
  · exact Or.inl (head_append "Sex" s 'S' (by decide))
  · exact Or.inr (Or.inl (head_append "Age" s 'A' (by decide)))
  · exact Or.inr (Or.inr (head_append "Breed Stage" s 'B' (by decide)))
  · exact Or.inr (Or.inl (head_append "ArgosQuality" s 'A' (by decide)))

theorem normalizeStep_ok_of (t : Table) (h : "distance_to_colony_km" ∈ t.cols)
    (hne : t.rows ≠ []) :
    normalizeStep t = .ok (updCol t "distance_to_colony_km" (fun _ r =>
      some (.num ((((match getCell t r "distance_to_colony_km" with
                     | some (.num q) => q
                     | _ => 0) - distMean t) / distScale t))))) := by
  unfold normalizeStep
  rw [if_pos h, if_neg (by simpa using hne)]

/-! ### Claim C3: counterexample and amended theorem -/

/-- C3 counterexample: a one-row table with every expected column except
`Latitude` (a coordinate column, not strictly required by the claim) makes
the whole pipeline raise a `KeyError` instead of skipping the dependent
derivation: the distance lambda reads `row["Latitude"]` unguarded. -/
theorem claim_C3_schema_gap_counterexample :
    processData tLat_x = .error .keyError := by decide

/-- C3 amended: only the time column's absence is handled by skipping the
dependent derivations: a table with the date, coordinate and categorical
columns (with a non-null value per categorical column, a numeric value per
coordinate column, and at least one row) but no time column is processed to
completion, with no season or timestamp feature.  A missing coordinate
column instead makes the distance step raise `KeyError` (on any non-empty
table), and a missing designated categorical column makes the one-hot
encoding step raise `KeyError`. -/
theorem claim_C3_schema_gap_amended :
    (∀ t : Table, "DateGMT" ∈ t.cols → "TimeGMT" ∉ t.cols → "Timestamp" ∉ t.cols →
      "season" ∉ t.cols → "Latitude" ∈ t.cols → "Longitude" ∈ t.cols →
      (∀ c ∈ categorical_cols, c ∈ t.cols) →
      (∀ c ∈ categorical_cols, ∃ cell ∈ colCells t c, cell.isSome) →
      (∀ c ∈ position_cols, ∃ i : Nat, ∃ q : ℚ, tcell t i c = some (.num q)) →
      t.rows ≠ [] →
      ∃ u, processData t = .ok u ∧ "season" ∉ u.cols ∧ "Timestamp" ∉ u.cols) ∧
    (∀ t : Table, t.rows ≠ [] → "Latitude" ∉ t.cols →
      distanceStep t = .error .keyError) ∧
    (∀ t : Table, ∀ c ∈ categorical_cols, c ∉ t.cols →
      encodeStep t = .error .keyError) := by
  refine ⟨?_, ?_, ?_⟩
  · intro t hdg htg hts hse hla hlo hcats hcatv hcoord hrows
    -- step 1: date parsing, in place
    have h1 : dateStep t = .ok (updCol t "DateGMT"
        (fun _ r => parseDateCell (getCell t r "DateGMT"))) := by
      unfold dateStep
      rw [if_pos hdg]
    generalize ht1 : updCol t "DateGMT"
        (fun _ r => parseDateCell (getCell t r "DateGMT")) = t1 at h1
    have h1c : t1.cols = t.cols := by
      rw [← ht1]
      exact updCol_cols_of_mem t "DateGMT" _ hdg
    have h1l : t1.rows.length = t.rows.length := by
      rw [← ht1]
      exact updCol_rows_length t "DateGMT" _
    have h1p : ∀ c2, c2 ≠ "DateGMT" → ∀ i, tcell t1 i c2 = tcell t i c2 := by
      intro c2 hne i
      rw [← ht1]
      exact tcell_updCol_ne t "DateGMT" _ c2 hne i
    -- step 2: time composition skipped
    have h2 : timeStep t1 = .ok t1 := timeStep_skip t1 (by rw [h1c]; exact htg)
    -- step 3: numeric coercion of the coordinates
    have h3c : (toNumericStep t1).cols = t.cols := by rw [toNumericStep_cols, h1c]
    have h3l : (toNumericStep t1).rows.length = t.rows.length := by
      rw [toNumericStep_length, h1l]
    have h3lat : ∀ i : Nat, ∀ q : ℚ, tcell t i "Latitude" = some (.num q) →
        tcell (toNumericStep t1) i "Latitude" = some (.num q) := by
      intro i q hq
      unfold toNumericStep
      rw [toNumOne_tcell_ne _ _ _ (by decide)]
      exact toNumOne_tcell_num t1 "Latitude" i q (by rw [h1p _ (by decide)]; exact hq)
    have h3lon : ∀ i : Nat, ∀ q : ℚ, tcell t i "Longitude" = some (.num q) →
        tcell (toNumericStep t1) i "Longitude" = some (.num q) := by
      intro i q hq
      unfold toNumericStep
      apply toNumOne_tcell_num
      rw [toNumOne_tcell_ne _ _ _ (by decide), h1p _ (by decide)]
      exact hq
    have h3pcat : ∀ c ∈ categorical_cols, ∀ i, tcell (toNumericStep t1) i c = tcell t i c := by
      intro c hc i
      obtain ⟨hne1, _, hne3, hne4, _, _, _⟩ := cat_ne_special c hc
      rw [toNumericStep_tcell_ne _ _ hne3 hne4, h1p _ hne1]
    -- step 4: mode imputation
    obtain ⟨u4, h4, h4c, h4l, h4p⟩ := modeFill_ok_of (toNumericStep t1)
      (by intro c hc; rw [h3c]; exact hcats c hc)
      (by
        intro c hc
        exact exists_isSome_transfer t (toNumericStep t1) c
          (by rw [h3l]) (h3pcat c hc) (hcatv c hc))
    have h4c2 : u4.cols = t.cols := by rw [h4c, h3c]
    have h4l2 : u4.rows.length = t.rows.length := by rw [h4l, h3l]
    -- step 5: KNN imputation
    obtain ⟨u5, h5, h5c, h5l, h5p⟩ := knnStep_ok_of u4
      (by
        obtain ⟨i, q, hq⟩ := hcoord "Latitude" (by decide)
        exact ⟨i, q, by rw [h4p "Latitude" (by decide)]; exact h3lat i q hq⟩)
      (by
        obtain ⟨i, q, hq⟩ := hcoord "Longitude" (by decide)
        exact ⟨i, q, by rw [h4p "Longitude" (by decide)]; exact h3lon i q hq⟩)
    have h5c2 : u5.cols = t.cols := by rw [h5c, h4c2]
    have h5l2 : u5.rows.length = t.rows.length := by rw [h5l, h4l2]
    -- step 6: distance feature
    have h6 : distanceStep u5 = .ok (updCol u5 "distance_to_colony_km" (fun _ r =>
        match getCell u5 r "Latitude", getCell u5 r "Longitude" with
        | some (.num a), some (.num b) => some (.num (geodesic_km a b))
        | _, _ => none)) :=
      distanceStep_ok_of u5 (by rw [h5c2]; exact hla) (by rw [h5c2]; exact hlo)
    generalize ht6 : updCol u5 "distance_to_colony_km" (fun _ r =>
        match getCell u5 r "Latitude", getCell u5 r "Longitude" with
        | some (.num a), some (.num b) => some (.num (geodesic_km a b))
        | _, _ => none) = t6 at h6
    have h6m : ∀ c2, c2 ∈ t6.cols ↔ (c2 ∈ t.cols ∨ c2 = "distance_to_colony_km") := by
      intro c2
      rw [← ht6, mem_updCol_cols, h5c2]
    have h6l : t6.rows.length = t.rows.length := by
      rw [← ht6, updCol_rows_length, h5l2]
    -- step 7: temporal features skipped
    have h7 : temporalStep t6 = t6 := by
      apply temporalStep_skip
      rw [h6m]
      rintro (h | h)
      · exact hts h
      · exact absurd h (by decide)
    -- step 8: one-hot encoding
    have h8cats : ∀ c ∈ categorical_cols, c ∈ t6.cols := by
      intro c hc
      rw [h6m]
      exact Or.inl (hcats c hc)
    have h8 := encodeStep_ok_of t6 h8cats
    generalize ht8 : (⟨(dropCats t6).cols ++ dummyColNames t6,
        ((dropCats t6).rows.zip t6.rows).map (fun p => p.1 ++ encodedCells t6 p.2)⟩ : Table) = t8 at h8
    have h8cols : t8.cols = (dropCats t6).cols ++ dummyColNames t6 := by rw [← ht8]
    have h8l : t8.rows.length = t.rows.length := by
      rw [encodeStep_ok_length t6 t8 h8, h6l]
    -- step 9: normalization
    have h9dist : "distance_to_colony_km" ∈ t8.cols := by
      rw [h8cols, List.mem_append]
      left
      rw [mem_dropCats_cols t6 _ (by decide), h6m]
      right
      rfl
    have h9rows : t8.rows ≠ [] := by
      intro he
      rw [he] at h8l
      exact hrows (List.length_eq_zero.mp h8l.symm)
    have h9 := normalizeStep_ok_of t8 h9dist h9rows
    generalize ht9 : updCol t8 "distance_to_colony_km" (fun _ r =>
        some (.num ((((match getCell t8 r "distance_to_colony_km" with
                       | some (.num q) => q
                       | _ => 0) - distMean t8) / distScale t8)))) = u9 at h9
    have h9c : u9.cols = t8.cols := by
      rw [← ht9]
      exact updCol_cols_of_mem t8 _ _ h9dist
    refine ⟨u9, ?_, ?_, ?_⟩
    · show processData t = _
      unfold processData
      simp only [bind_ok_congr _ _ _ h1, bind_ok_congr _ _ _ h2,
        bind_ok_congr _ _ _ h4, bind_ok_congr _ _ _ h5, bind_ok_congr _ _ _ h6, h7,
        bind_ok_congr _ _ _ h8]
      exact h9
    · rw [h9c, h8cols, List.mem_append]
      rintro (h | h)
      · rw [mem_dropCats_cols t6 _ (by decide), h6m] at h
        rcases h with h | h
        · exact hse h
        · exact absurd h (by decide)
      · rcases dummy_name_head t6 _ h with hh | hh | hh <;> exact absurd hh (by decide)
    · rw [h9c, h8cols, List.mem_append]
      rintro (h | h)
      · rw [mem_dropCats_cols t6 _ (by decide), h6m] at h
        rcases h with h | h
        · exact hts h
        · exact absurd h (by decide)
      · rcases dummy_name_head t6 _ h with hh | hh | hh <;> exact absurd hh (by decide)
  · intro t hne hnotin
    unfold distanceStep
    rw [if_pos ⟨hnotin, by simpa using hne⟩]
  · intro t c hc hnotin
    unfold encodeStep
    rw [if_neg]
    intro hall
    rw [List.all_eq_true] at hall
    exact hnotin (of_decide_eq_true (hall c hc))

/-- Witness for C3 on a one-row table with every required column except the
time-of-day column. -/
theorem claim_C3_schema_gap_amended_witness :
    ∃ u, processData tPipe_w = .ok u ∧ "season" ∉ u.cols ∧ "Timestamp" ∉ u.cols :=
  claim_C3_schema_gap_amended.1 tPipe_w (by decide) (by decide) (by decide) (by decide)
    (by decide) (by decide) (by decide) (by decide)
    (by
      intro c hc
      fin_cases hc
      · exact ⟨0, -62, by decide⟩
      · exact ⟨0, -58, by decide⟩)
    (by decide)

end DataPrep
